import Mathlib

/-!
Verification development for the excelEnhance repository.

The repository has three scripts:
* excelrefine.py: unmerges merged cell ranges (annotating them inline) and adds a
  sheet-structure summary worksheet to an Excel workbook;
* extract_xlsxcells.py: extracts non-empty cells of a workbook into a line-oriented
  Markdown format, with a textual sheet-structure summary;
* md2excel_tbl.py: parses that Markdown format back and reconstructs a dense
  Excel-like grid per sheet.

Strings are modelled as List Char; Python str methods (strip, replace, split,
startswith) are translated operationally below.
-/

set_option maxHeartbeats 1000000

namespace ExcelEnhance

/-! ## Character classes -/

/-- ASCII uppercase letter test: the character class of the regex [A-Z]. -/
def isUpperAZ (c : Char) : Bool := 65 ≤ c.toNat && c.toNat ≤ 90

/-- ASCII digit test: the character class of the regex \d on ASCII input. -/
def isDigitCh (c : Char) : Bool := 48 ≤ c.toNat && c.toNat ≤ 57

/-- Whitespace characters removed by Python str.strip(). -/
def isSpaceCh (c : Char) : Bool :=
  c = ' ' || c = '\t' || c = '\n' || c = '\r' || c = Char.ofNat 11 || c = Char.ofNat 12

/-! ## Column letters to integers (md2excel_tbl.create_excel_like_grid, line 40) -/

/-- Value of an uppercase letter: ord(c) - 64 in the Python source. -/
def letterVal (c : Char) : Nat := c.toNat - 64

/-- Column-letter to integer conversion from create_excel_like_grid:
`sum((ord(c) - 64) * (26 ** i) for i, c in enumerate(reversed(col)))`. -/
def colToInt (L : List Char) : Nat :=
  ((L.reverse.enum).map (fun p => letterVal p.2 * 26 ^ p.1)).sum

/-- A valid Excel column label: a non-empty run of the characters A..Z. -/
def validLabel (L : List Char) : Prop := L ≠ [] ∧ ∀ c ∈ L, isUpperAZ c = true

theorem enumFrom_weight_sum (l : List Char) : ∀ n : Nat,
    ((List.enumFrom n l).map (fun p => letterVal p.2 * 26 ^ p.1)).sum
      = 26 ^ n * ((l.enum).map (fun p => letterVal p.2 * 26 ^ p.1)).sum := by
  induction l with
  | nil => intro n; simp
  | cons c cs ih =>
    intro n
    rw [List.enumFrom_cons, List.map_cons, List.sum_cons, ih (n + 1),
      show List.enum (c :: cs) = (0, c) :: List.enumFrom 1 cs from rfl,
      List.map_cons, List.sum_cons, ih 1]
    ring

theorem colToInt_nil : colToInt [] = 0 := rfl

theorem colToInt_snoc (L : List Char) (c : Char) :
    colToInt (L ++ [c]) = 26 * colToInt L + letterVal c := by
  unfold colToInt
  rw [List.reverse_append, show ([c].reverse ++ L.reverse) = c :: L.reverse by simp,
    show List.enum (c :: L.reverse) = (0, c) :: List.enumFrom 1 L.reverse from rfl,
    List.map_cons, List.sum_cons, enumFrom_weight_sum]
  ring

/-- The uppercase letter with a given 1-based value; inverse of letterVal on A..Z. -/
def letterOfVal (d : Nat) : Char := Char.ofNat (64 + d)

theorem letterVal_letterOfVal : ∀ d : Nat, d < 27 → letterVal (letterOfVal d) = d := by
  decide

theorem isUpperAZ_letterOfVal : ∀ d : Nat, d < 27 → 1 ≤ d →
    isUpperAZ (letterOfVal d) = true := by
  decide

theorem letterOfVal_letterVal (c : Char) (h : isUpperAZ c = true) :
    letterOfVal (letterVal c) = c := by
  have h1 : 65 ≤ c.toNat ∧ c.toNat ≤ 90 := by
    simpa [isUpperAZ, Bool.and_eq_true, decide_eq_true_eq] using h
  have h2 : 64 + letterVal c = c.toNat := by
    unfold letterVal; omega
  rw [letterOfVal, h2, Char.ofNat_toNat]

theorem letterVal_bounds (c : Char) (h : isUpperAZ c = true) :
    1 ≤ letterVal c ∧ letterVal c ≤ 26 := by
  have h1 : 65 ≤ c.toNat ∧ c.toNat ≤ 90 := by
    simpa [isUpperAZ, Bool.and_eq_true, decide_eq_true_eq] using h
  unfold letterVal; omega

/-- Bijective base-26 rendering of a positive column number (the inverse direction
of the conversion, as produced by the spreadsheet library's get_column_letter).
Fuel-based to keep the recursion structural. -/
def toLettersAux : Nat → Nat → List Char
  | 0, _ => []
  | fuel + 1, n =>
    if n = 0 then []
    else toLettersAux fuel ((n - 1) / 26) ++ [letterOfVal ((n - 1) % 26 + 1)]

/-- Column number to column letters (bijective base 26, A=1 .. Z=26, AA=27 ..). -/
def toLetters (n : Nat) : List Char := toLettersAux n n

theorem toLettersAux_congr : ∀ f1 f2 n : Nat, n ≤ f1 → n ≤ f2 →
    toLettersAux f1 n = toLettersAux f2 n := by
  intro f1
  induction f1 with
  | zero =>
    intro f2 n h1 _
    have : n = 0 := Nat.le_zero.mp h1
    subst this
    cases f2 <;> simp [toLettersAux]
  | succ g ih =>
    intro f2 n h1 h2
    by_cases hn : n = 0
    · subst hn; cases f2 <;> simp [toLettersAux]
    · have hf2 : ∃ h, f2 = h + 1 := ⟨f2 - 1, by omega⟩
      obtain ⟨h, rfl⟩ := hf2
      simp only [toLettersAux, if_neg hn]
      have hd : (n - 1) / 26 ≤ g := by
        have := Nat.div_le_self (n - 1) 26
        omega
      have hd2 : (n - 1) / 26 ≤ h := by
        have := Nat.div_le_self (n - 1) 26
        omega
      rw [ih h ((n - 1) / 26) hd hd2]

theorem toLetters_succ (n : Nat) (h : 1 ≤ n) :
    toLetters n = toLetters ((n - 1) / 26) ++ [letterOfVal ((n - 1) % 26 + 1)] := by
  unfold toLetters
  have hn : ∃ m, n = m + 1 := ⟨n - 1, by omega⟩
  obtain ⟨m, rfl⟩ := hn
  simp only [toLettersAux, if_neg (by omega : ¬ m + 1 = 0)]
  congr 1
  exact toLettersAux_congr m ((m + 1 - 1) / 26) ((m + 1 - 1) / 26)
    (by have := Nat.div_le_self m 26; omega) (le_refl _)

theorem toLetters_zero : toLetters 0 = [] := rfl

theorem colToInt_toLetters : ∀ n : Nat, colToInt (toLetters n) = n := by
  intro n
  induction n using Nat.strong_induction_on with
  | _ n ih =>
    by_cases hn : n = 0
    · subst hn; simp [toLetters_zero, colToInt_nil]
    · rw [toLetters_succ n (by omega), colToInt_snoc,
        ih ((n - 1) / 26) (by have := Nat.div_le_self (n - 1) 26; omega),
        letterVal_letterOfVal ((n - 1) % 26 + 1) (by have := Nat.mod_lt (n - 1) (by norm_num : (0:Nat) < 26); omega)]
      have := Nat.div_add_mod (n - 1) 26
      omega

theorem toLetters_valid (n : Nat) (h : 1 ≤ n) : validLabel (toLetters n) := by
  induction n using Nat.strong_induction_on with
  | _ n ih =>
    rw [toLetters_succ n h]
    constructor
    · simp
    · intro c hc
      rw [List.mem_append] at hc
      rcases hc with hc | hc
      · by_cases hq : (n - 1) / 26 = 0
        · rw [hq, toLetters_zero] at hc; simp at hc
        · exact ((ih ((n - 1) / 26)
            (by have := Nat.div_le_self (n - 1) 26; omega) (by omega)).2) c hc
      · have : c = letterOfVal ((n - 1) % 26 + 1) := by simpa using hc
        subst this
        exact isUpperAZ_letterOfVal _ (by have := Nat.mod_lt (n - 1) (by norm_num : (0:Nat) < 26); omega) (by omega)

theorem toLetters_colToInt : ∀ L : List Char, (∀ c ∈ L, isUpperAZ c = true) →
    toLetters (colToInt L) = L := by
  intro L
  induction L using List.reverseRecOn with
  | nil => intro _; simp [colToInt_nil, toLetters_zero]
  | append_singleton L c ih =>
    intro h
    have hc : isUpperAZ c = true := h c (by simp)
    have hL : ∀ x ∈ L, isUpperAZ x = true := fun x hx => h x (by simp [hx])
    have hd := letterVal_bounds c hc
    rw [colToInt_snoc]
    set m := colToInt L with hm
    set d := letterVal c with hdd
    have h1 : 1 ≤ 26 * m + d := by omega
    rw [toLetters_succ _ h1]
    have hdiv : (26 * m + d - 1) / 26 = m := by
      have : 26 * m + d - 1 = 26 * m + (d - 1) := by omega
      rw [this, Nat.mul_add_div (by norm_num)]
      have : (d - 1) / 26 = 0 := Nat.div_eq_of_lt (by omega)
      omega
    have hmod : (26 * m + d - 1) % 26 = d - 1 := by
      have : 26 * m + d - 1 = 26 * m + (d - 1) := by omega
      rw [this, Nat.mul_add_mod]
      exact Nat.mod_eq_of_lt (by omega)
    rw [hdiv, hmod, ih hL]
    have : d - 1 + 1 = d := by omega
    rw [this, hdd, letterOfVal_letterVal c hc]

/-- The sum-over-positions formula of the specification: digit value times
26 to the power of the position counted from the right. -/
def colFormula (L : List Char) : Nat :=
  ∑ i ∈ Finset.range L.length, letterVal (L.getD i 'A') * 26 ^ (L.length - 1 - i)

theorem colToInt_eq_colFormula : ∀ L : List Char, colToInt L = colFormula L := by
  intro L
  induction L using List.reverseRecOn with
  | nil => simp [colToInt_nil, colFormula]
  | append_singleton L c ih =>
    rw [colToInt_snoc, ih]
    unfold colFormula
    rw [List.length_append, List.length_singleton, Finset.sum_range_succ]
    have hlast : (L ++ [c]).getD L.length 'A' = c := by
      simp [List.getD_eq_getElem?_getD]
    have hmid : ∀ i ∈ Finset.range L.length,
        letterVal ((L ++ [c]).getD i 'A') * 26 ^ (L.length + 1 - 1 - i)
          = 26 * (letterVal (L.getD i 'A') * 26 ^ (L.length - 1 - i)) := by
      intro i hi
      rw [Finset.mem_range] at hi
      have hgetd : (L ++ [c]).getD i 'A' = L.getD i 'A' := by
        simp [List.getD_eq_getElem?_getD, List.getElem?_append_left hi]
      rw [hgetd]
      have hexp : L.length + 1 - 1 - i = (L.length - 1 - i) + 1 := by omega
      rw [hexp, pow_succ]
      ring
    rw [Finset.sum_congr rfl hmid, hlast]
    have : L.length + 1 - 1 - L.length = 0 := by omega
    rw [this, pow_zero, ← Finset.mul_sum]
    ring

/-! ## Decimal digits (Python str of an int, and int of a digit string) -/

/-- Decimal rendering of a natural number, as Python str(n); fuel-based. -/
def natDigitsAux : Nat → Nat → List Char
  | 0, _ => []
  | fuel + 1, n =>
    if n < 10 then [Char.ofNat (48 + n)]
    else natDigitsAux fuel (n / 10) ++ [Char.ofNat (48 + n % 10)]

/-- Decimal rendering of a natural number, as Python str(n). -/
def natDigits (n : Nat) : List Char := natDigitsAux (n + 1) n

/-- Parsing of a digit string, as Python int(s) on a string of ASCII digits
(pandas .astype(int) on the digit run of the coordinate). -/
def digitsToNat (s : List Char) : Nat := s.foldl (fun a c => a * 10 + (c.toNat - 48)) 0

theorem natDigitsAux_congr : ∀ f1 f2 n : Nat, n < f1 → n < f2 →
    natDigitsAux f1 n = natDigitsAux f2 n := by
  intro f1
  induction f1 with
  | zero => intro f2 n h1 _; omega
  | succ g ih =>
    intro f2 n h1 h2
    have hf2 : ∃ h, f2 = h + 1 := ⟨f2 - 1, by omega⟩
    obtain ⟨h, rfl⟩ := hf2
    by_cases hn : n < 10
    · simp [natDigitsAux, hn]
    · simp only [natDigitsAux, if_neg hn]
      have hd : n / 10 < g := by
        have := Nat.div_lt_self (by omega : 0 < n) (by norm_num : 1 < 10)
        omega
      have hd2 : n / 10 < h := by
        have := Nat.div_lt_self (by omega : 0 < n) (by norm_num : 1 < 10)
        omega
      rw [ih h (n / 10) hd hd2]

theorem natDigits_lt_ten (n : Nat) (h : n < 10) : natDigits n = [Char.ofNat (48 + n)] := by
  simp [natDigits, natDigitsAux, h]

theorem natDigits_ge_ten (n : Nat) (h : 10 ≤ n) :
    natDigits n = natDigits (n / 10) ++ [Char.ofNat (48 + n % 10)] := by
  unfold natDigits
  rw [show natDigitsAux (n + 1) n = if n < 10 then [Char.ofNat (48 + n)]
      else natDigitsAux n (n / 10) ++ [Char.ofNat (48 + n % 10)] from rfl,
    if_neg (by omega)]
  congr 1
  exact natDigitsAux_congr n (n / 10 + 1) (n / 10)
    (Nat.div_lt_self (by omega) (by norm_num)) (Nat.lt_succ_self _)

theorem digitsToNat_snoc (s : List Char) (c : Char) :
    digitsToNat (s ++ [c]) = digitsToNat s * 10 + (c.toNat - 48) := by
  simp [digitsToNat, List.foldl_append]

theorem toNat_ofNat_digit : ∀ d : Nat, d < 10 → (Char.ofNat (48 + d)).toNat = 48 + d := by
  decide

theorem isDigitCh_ofNat_digit : ∀ d : Nat, d < 10 →
    isDigitCh (Char.ofNat (48 + d)) = true := by
  decide

theorem digitsToNat_natDigits : ∀ n : Nat, digitsToNat (natDigits n) = n := by
  intro n
  induction n using Nat.strong_induction_on with
  | _ n ih =>
    by_cases hn : n < 10
    · rw [natDigits_lt_ten n hn,
        show ([Char.ofNat (48 + n)] : List Char) = [] ++ [Char.ofNat (48 + n)] by simp,
        digitsToNat_snoc, toNat_ofNat_digit n hn]
      simp [digitsToNat]
    · rw [natDigits_ge_ten n (by omega), digitsToNat_snoc,
        ih (n / 10) (Nat.div_lt_self (by omega) (by norm_num)),
        toNat_ofNat_digit (n % 10) (Nat.mod_lt n (by norm_num))]
      have := Nat.div_add_mod n 10
      omega

theorem natDigits_all_digit (n : Nat) : ∀ c ∈ natDigits n, isDigitCh c = true := by
  induction n using Nat.strong_induction_on with
  | _ n ih =>
    intro c hc
    by_cases hn : n < 10
    · rw [natDigits_lt_ten n hn] at hc
      have : c = Char.ofNat (48 + n) := by simpa using hc
      subst this
      exact isDigitCh_ofNat_digit n hn
    · rw [natDigits_ge_ten n (by omega), List.mem_append] at hc
      rcases hc with hc | hc
      · exact ih (n / 10) (Nat.div_lt_self (by omega) (by norm_num)) c hc
      · have : c = Char.ofNat (48 + n % 10) := by simpa using hc
        subst this
        exact isDigitCh_ofNat_digit (n % 10) (Nat.mod_lt n (by norm_num))

theorem natDigits_ne_nil (n : Nat) : natDigits n ≠ [] := by
  by_cases hn : n < 10
  · rw [natDigits_lt_ten n hn]; simp
  · rw [natDigits_ge_ten n (by omega)]; simp

/-- Cell coordinate string of a (row, column) pair, as openpyxl cell.coordinate:
column letters followed by the decimal row number. -/
def coordOf (r c : Nat) : List Char := toLetters c ++ natDigits r

/-- Characters of A..Z and of 0..9 are disjoint classes. -/
theorem not_digit_of_upper (c : Char) (h : isUpperAZ c = true) : isDigitCh c = false := by
  simp only [isUpperAZ, Bool.and_eq_true, decide_eq_true_eq] at h
  simp only [isDigitCh, Bool.and_eq_false_iff, decide_eq_false_iff_not]
  omega

theorem not_upper_of_digit (c : Char) (h : isDigitCh c = true) : isUpperAZ c = false := by
  simp only [isDigitCh, Bool.and_eq_true, decide_eq_true_eq] at h
  simp only [isUpperAZ, Bool.and_eq_false_iff, decide_eq_false_iff_not]
  omega

theorem not_space_of_upper (c : Char) (h : isUpperAZ c = true) : isSpaceCh c = false := by
  simp only [isUpperAZ, Bool.and_eq_true, decide_eq_true_eq] at h
  rcases h with ⟨h1, h2⟩
  simp only [isSpaceCh, Bool.or_eq_false_iff, decide_eq_false_iff_not]
  refine ⟨⟨⟨⟨⟨?_, ?_⟩, ?_⟩, ?_⟩, ?_⟩, ?_⟩ <;>
    · intro hEq
      rw [hEq] at h1 h2
      revert h1 h2
      decide

theorem not_space_of_digit (c : Char) (h : isDigitCh c = true) : isSpaceCh c = false := by
  simp only [isDigitCh, Bool.and_eq_true, decide_eq_true_eq] at h
  rcases h with ⟨h1, h2⟩
  simp only [isSpaceCh, Bool.or_eq_false_iff, decide_eq_false_iff_not]
  refine ⟨⟨⟨⟨⟨?_, ?_⟩, ?_⟩, ?_⟩, ?_⟩, ?_⟩ <;>
    · intro hEq
      rw [hEq] at h1 h2
      revert h1 h2
      decide

/-! ## Python string methods -/

/-- Python str.strip(): drop whitespace from both ends. -/
def pyStrip (s : List Char) : List Char :=
  ((s.dropWhile isSpaceCh).reverse.dropWhile isSpaceCh).reverse

/-- Python str.replace(pat, ''): remove all non-overlapping occurrences of pat,
scanning left to right. Fuel-based (fuel at least the length of the string). -/
def removeAllAux (pat : List Char) : Nat → List Char → List Char
  | 0, s => s
  | _ + 1, [] => []
  | fuel + 1, c :: rest =>
    if pat ≠ [] ∧ pat.isPrefixOf (c :: rest) then
      removeAllAux pat fuel (List.drop (pat.length - 1) rest)
    else c :: removeAllAux pat fuel rest

/-- Python s.replace(pat, '') for a non-empty pattern. -/
def removeAll (pat s : List Char) : List Char := removeAllAux pat s.length s

/-- Occurrence test: pat appears as a contiguous substring of s. -/
def containsSub (pat : List Char) : List Char → Bool
  | [] => pat.isEmpty
  | c :: rest => pat.isPrefixOf (c :: rest) || containsSub pat rest

/-- Python s.split(sep, 1) helper: split at the first colon, if any. -/
def splitColonAux : List Char → Option (List Char × List Char)
  | [] => none
  | c :: rest =>
    if c = ':' then some ([], rest)
    else
      match splitColonAux rest with
      | none => none
      | some (a, b) => some (c :: a, b)

/-- Python s.split(colon, 1): one or two parts. -/
def pySplitColon1 (s : List Char) : List (List Char) :=
  match splitColonAux s with
  | none => [s]
  | some (a, b) => [a, b]

/-- Python s.split(newline): the list of lines, with empty trailing line kept. -/
def splitOnNl : List Char → List (List Char)
  | [] => [[]]
  | c :: rest =>
    if c = '\n' then [] :: splitOnNl rest
    else
      match splitOnNl rest with
      | [] => [[c]]
      | l :: ls => (c :: l) :: ls

theorem removeAllAux_congr (pat : List Char) : ∀ f1 f2 s, s.length ≤ f1 → s.length ≤ f2 →
    removeAllAux pat f1 s = removeAllAux pat f2 s := by
  intro f1
  induction f1 with
  | zero =>
    intro f2 s h1 _
    have : s = [] := List.length_eq_zero.mp (by omega)
    subst this
    cases f2 <;> rfl
  | succ g ih =>
    intro f2 s h1 h2
    cases s with
    | nil => cases f2 <;> rfl
    | cons c rest =>
      have hf2 : ∃ h, f2 = h + 1 := ⟨f2 - 1, by simp at h2; omega⟩
      obtain ⟨h, rfl⟩ := hf2
      simp only [removeAllAux]
      by_cases hp : pat ≠ [] ∧ pat.isPrefixOf (c :: rest)
      · rw [if_pos hp, if_pos hp]
        apply ih
        · have := List.length_drop (pat.length - 1) rest
          simp at h1
          omega
        · have := List.length_drop (pat.length - 1) rest
          simp at h2
          omega
      · rw [if_neg hp, if_neg hp]
        have := ih h rest (by simp at h1; omega) (by simp at h2; omega)
        rw [this]

theorem removeAll_nil (pat : List Char) : removeAll pat [] = [] := rfl

theorem removeAll_cons_no_match (pat : List Char) (c : Char) (rest : List Char)
    (h : ¬ pat.isPrefixOf (c :: rest) = true) :
    removeAll pat (c :: rest) = c :: removeAll pat rest := by
  unfold removeAll
  rw [show (c :: rest).length = rest.length + 1 from rfl]
  simp only [removeAllAux,
    if_neg (show ¬ (pat ≠ [] ∧ pat.isPrefixOf (c :: rest) = true) from fun hp => h hp.2)]

theorem removeAll_prefix_step (pat : List Char) (c : Char) (rest : List Char)
    (hne : pat ≠ []) (h : pat.isPrefixOf (c :: rest) = true) :
    removeAll pat (c :: rest) = removeAll pat (List.drop (pat.length - 1) rest) := by
  unfold removeAll
  rw [show (c :: rest).length = rest.length + 1 from rfl]
  simp only [removeAllAux, if_pos (And.intro hne h)]
  apply removeAllAux_congr
  · have := List.length_drop (pat.length - 1) rest
    omega
  · exact le_refl _

theorem removeAll_of_not_contains (pat : List Char) : ∀ s : List Char,
    containsSub pat s = false → removeAll pat s = s := by
  intro s
  induction s with
  | nil => intro _; rfl
  | cons c rest ih =>
    intro h
    simp only [containsSub, Bool.or_eq_false_iff] at h
    rw [removeAll_cons_no_match pat c rest (by rw [h.1]; simp), ih h.2]

theorem isPrefixOf_append_self (pat s : List Char) : pat.isPrefixOf (pat ++ s) = true := by
  induction pat with
  | nil => cases s <;> rfl
  | cons c cs ih => simp [List.isPrefixOf, ih]

theorem removeAll_pat_append (pat s : List Char) (hne : pat ≠ [])
    (h : containsSub pat s = false) : removeAll pat (pat ++ s) = s := by
  obtain ⟨c, cs, rfl⟩ := List.exists_cons_of_ne_nil hne
  rw [show (c :: cs) ++ s = c :: (cs ++ s) from rfl,
    removeAll_prefix_step (c :: cs) c (cs ++ s) hne
      (by rw [show c :: (cs ++ s) = (c :: cs) ++ s from rfl]; exact isPrefixOf_append_self _ _)]
  have hdrop : List.drop ((c :: cs).length - 1) (cs ++ s) = s := by
    rw [show (c :: cs).length - 1 = cs.length from by simp]
    rw [List.drop_append_of_le_length (le_refl _)]
    simp
  rw [hdrop]
  exact removeAll_of_not_contains (c :: cs) s h

theorem containsSub_append_head_notin (p : Char) (ps : List Char) : ∀ a b : List Char,
    p ∉ a → containsSub (p :: ps) (a ++ b) = containsSub (p :: ps) b := by
  intro a
  induction a with
  | nil => intro b _; rfl
  | cons x xs ih =>
    intro b h
    have hx : ¬ (p = x) := fun he => h (by simp [he])
    simp only [List.cons_append, containsSub, List.append_eq]
    have hpre : (p :: ps).isPrefixOf (x :: (xs ++ b)) = false := by
      simp only [List.isPrefixOf, Bool.and_eq_false_iff]
      left
      simpa using hx
    rw [hpre, Bool.false_or, ih b (fun hm => h (List.mem_cons_of_mem _ hm))]

theorem containsSub_eq_false_of_notin (p : Char) (ps : List Char) :
    ∀ s : List Char, (∀ c ∈ s, ¬ (c = p)) → containsSub (p :: ps) s = false := by
  intro s
  induction s with
  | nil => intro _; simp [containsSub, List.isEmpty]
  | cons c rest ih =>
    intro h
    simp only [containsSub, Bool.or_eq_false_iff]
    constructor
    · simp only [List.isPrefixOf, Bool.and_eq_false_iff]
      left
      have := h c (by simp)
      simpa using fun he => this he.symm
    · exact ih (fun x hx => h x (List.mem_cons_of_mem _ hx))

theorem splitColonAux_append (a b : List Char) (h : ':' ∉ a) :
    splitColonAux (a ++ ':' :: b) = some (a, b) := by
  induction a with
  | nil => simp [splitColonAux]
  | cons c cs ih =>
    have hc : ¬ (c = ':') := fun he => h (by simp [he])
    simp only [List.cons_append, splitColonAux, if_neg hc, List.append_eq]
    rw [ih (fun hm => h (List.mem_cons_of_mem _ hm))]

theorem splitOnNl_ne_nil : ∀ s : List Char, splitOnNl s ≠ [] := by
  intro s
  induction s with
  | nil => simp [splitOnNl]
  | cons c rest ih =>
    simp only [splitOnNl]
    by_cases hc : c = '\n'
    · simp [hc]
    · rw [if_neg hc]
      cases hs : splitOnNl rest with
      | nil => simp
      | cons l ls => simp

theorem splitOnNl_no_nl : ∀ s : List Char, '\n' ∉ s → splitOnNl s = [s] := by
  intro s
  induction s with
  | nil => intro _; rfl
  | cons c rest ih =>
    intro h
    have hc : ¬ (c = '\n') := fun he => h (by simp [he])
    simp only [splitOnNl, if_neg hc]
    rw [ih (fun hm => h (List.mem_cons_of_mem _ hm))]

theorem splitOnNl_line_append (line rest : List Char) (h : '\n' ∉ line) :
    splitOnNl (line ++ '\n' :: rest) = line :: splitOnNl rest := by
  induction line with
  | nil => simp [splitOnNl]
  | cons c cs ih =>
    have hc : ¬ (c = '\n') := fun he => h (by simp [he])
    simp only [List.cons_append, splitOnNl, if_neg hc, List.append_eq]
    rw [ih (fun hm => h (List.mem_cons_of_mem _ hm))]

theorem dropWhile_space_eq_self (s : List Char) (h : ∀ c ∈ s, isSpaceCh c = false) :
    s.dropWhile isSpaceCh = s := by
  cases s with
  | nil => rfl
  | cons c rest => rw [List.dropWhile_cons_of_neg (by simp [h c (by simp)])]

theorem pyStrip_no_space (s : List Char) (h : ∀ c ∈ s, isSpaceCh c = false) :
    pyStrip s = s := by
  unfold pyStrip
  rw [dropWhile_space_eq_self s h,
    dropWhile_space_eq_self s.reverse (fun c hc => h c (List.mem_reverse.mp hc)),
    List.reverse_reverse]

theorem pyStrip_cons_space (c : Char) (s : List Char) (h : isSpaceCh c = true) :
    pyStrip (c :: s) = pyStrip s := by
  unfold pyStrip
  rw [List.dropWhile_cons_of_pos (by simp [h])]

/-! ## Sheet-structure summary (annotate_sheet_structure in both scripts) -/

def summaryHeader : List Char := "---WorkbookSheetStructure---".data

/-- One summary line: SheetIndex=i;SheetName=name. -/
def summaryLine (i : Nat) (name : List Char) : List Char :=
  "SheetIndex=".data ++ natDigits i ++ ";SheetName=".data ++ name

/-- The numbered summary lines for a list of sheet names
(enumerate(..., start=1) in the source). -/
def summaryBody : Nat → List (List Char) → List (List Char)
  | _, [] => []
  | i, n :: ns => summaryLine i n :: summaryBody (i + 1) ns

/-- Join lines, terminating each with a newline (the scripts build such blocks
by appending line + newline repeatedly). -/
def joinNl (ls : List (List Char)) : List Char := (ls.map (fun l => l ++ ['\n'])).flatten

/-- annotate_sheet_structure of extract_xlsxcells.py: the text-block form. -/
def annotate_sheet_structure_text (sheetnames : List (List Char)) : List Char :=
  summaryHeader ++ '\n' :: joinNl (summaryBody 1 sheetnames)

theorem digit_ne_nl (c : Char) (h : isDigitCh c = true) : ¬ (c = '\n') := by
  intro he
  rw [he] at h
  revert h
  decide

theorem summaryLine_no_nl (i : Nat) (name : List Char) (h : '\n' ∉ name) :
    '\n' ∉ summaryLine i name := by
  intro hm
  unfold summaryLine at hm
  simp only [List.mem_append] at hm
  rcases hm with ((h1 | h2) | h3) | h4
  · revert h1; decide
  · exact digit_ne_nl '\n' (natDigits_all_digit i '\n' h2) rfl
  · revert h3; decide
  · exact h h4

theorem summaryBody_mem : ∀ (ns : List (List Char)) (i : Nat) (l : List Char),
    l ∈ summaryBody i ns → ∃ j n, n ∈ ns ∧ l = summaryLine j n := by
  intro ns
  induction ns with
  | nil => intro i l h; simp [summaryBody] at h
  | cons n ns ih =>
    intro i l h
    simp only [summaryBody, List.mem_cons] at h
    rcases h with h | h
    · exact ⟨i, n, by simp, h⟩
    · obtain ⟨j, m, hm, he⟩ := ih (i + 1) l h
      exact ⟨j, m, by simp [hm], he⟩

theorem splitOnNl_joinNl : ∀ ls : List (List Char), (∀ l ∈ ls, '\n' ∉ l) →
    splitOnNl (joinNl ls) = ls ++ [[]] := by
  intro ls
  induction ls with
  | nil => intro _; rfl
  | cons l ls ih =>
    intro h
    unfold joinNl
    rw [List.map_cons, List.flatten_cons,
      show (l ++ ['\n']) ++ (ls.map (fun l => l ++ ['\n'])).flatten
        = l ++ '\n' :: (ls.map (fun l => l ++ ['\n'])).flatten by simp,
      splitOnNl_line_append l _ (h l (by simp))]
    rw [show ((ls.map (fun l => l ++ ['\n'])).flatten : List Char) = joinNl ls from rfl,
      ih (fun x hx => h x (List.mem_cons_of_mem _ hx))]
    rfl

/-! ## Workbook model for excelrefine.py -/

/-- A merged cell range with inclusive 1-based bounds, as openpyxl CellRange. -/
structure MergedRange where
  minRow : Nat
  minCol : Nat
  maxRow : Nat
  maxCol : Nat
deriving DecidableEq

/-- A workbook: ordered sheet names plus, for each sheet name, its cell values
and its merged ranges. Cells of sheets not present hold the empty value. -/
structure Workbook where
  sheetNames : List (List Char)
  cells : List Char → Nat → Nat → List Char
  merged : List Char → List MergedRange

def summarySheetName : List Char := "Sheet_Structure_Summary".data

/-- Write one cell of a named worksheet. -/
def wbSetCell (f : List Char → Nat → Nat → List Char) (s : List Char) (r c : Nat)
    (v : List Char) : List Char → Nat → Nat → List Char :=
  fun s' r' c' => if s' = s ∧ r' = r ∧ c' = c then v else f s' r' c'

/-- The summary-writing loop of excelrefine.annotate_sheet_structure:
row_num starts at 2, idx at 1; each iteration writes one line into column 1. -/
def writeSummaryLines (f : List Char → Nat → Nat → List Char) (row idx : Nat) :
    List (List Char) → (List Char → Nat → Nat → List Char)
  | [] => f
  | n :: ns =>
    writeSummaryLines (wbSetCell f summarySheetName row 1 (summaryLine idx n))
      (row + 1) (idx + 1) ns

/-- annotate_sheet_structure of excelrefine.py: dedicated-worksheet form. The summary
sheet is created (appended at the end) when absent; the enumeration loop then runs
over wb.sheetnames, which at that point already includes the summary sheet itself. -/
def annotate_sheet_structure_wb (wb : Workbook) : Workbook :=
  let names1 := if summarySheetName ∈ wb.sheetNames then wb.sheetNames
                else wb.sheetNames ++ [summarySheetName]
  let cells1 := wbSetCell wb.cells summarySheetName 1 1 summaryHeader
  { sheetNames := names1,
    cells := writeSummaryLines cells1 2 1 names1,
    merged := wb.merged }

/-- The workbook of the C7 example: sheets Data and Notes, all cells empty. -/
def wbDataNotes : Workbook :=
  { sheetNames := ["Data".data, "Notes".data],
    cells := fun _ _ _ => [],
    merged := fun _ => [] }

/-- C7 counterexample: for the workbook with sheets Data and Notes, the
dedicated-worksheet form does not produce exactly two lines after the header: the
summary sheet is created before the enumeration loop runs, so a third line
SheetIndex=3;SheetName=Sheet_Structure_Summary is written at row 4. -/
theorem c7_counterexample_third_line :
    (annotate_sheet_structure_wb wbDataNotes).cells summarySheetName 4 1
        = "SheetIndex=3;SheetName=Sheet_Structure_Summary".data ∧
    ¬ ((annotate_sheet_structure_wb wbDataNotes).cells summarySheetName 4 1 = []) := by
  constructor
  · decide
  · decide

/-- C7 amended: for a workbook with sheets Data and Notes, the text-block form
produces the header line followed by exactly the two lines SheetIndex=1;SheetName=Data
and SheetIndex=2;SheetName=Notes (one line per sheet, 1-based, in order); the
dedicated-worksheet form writes those two lines at rows 2 and 3 but follows them
with a third line for the Sheet_Structure_Summary sheet itself, which is created
before the enumeration and is therefore also enumerated. -/
theorem c7_sheet_structure_summary :
    (∀ names : List (List Char), (∀ n ∈ names, '\n' ∉ n) →
      splitOnNl (annotate_sheet_structure_text names)
        = summaryHeader :: (summaryBody 1 names ++ [[]])) ∧
    annotate_sheet_structure_text ["Data".data, "Notes".data]
      = ("---WorkbookSheetStructure---\nSheetIndex=1;SheetName=Data\nSheetIndex=2;SheetName=Notes\n").data ∧
    ((annotate_sheet_structure_wb wbDataNotes).cells summarySheetName 1 1 = summaryHeader ∧
     (annotate_sheet_structure_wb wbDataNotes).cells summarySheetName 2 1
        = "SheetIndex=1;SheetName=Data".data ∧
     (annotate_sheet_structure_wb wbDataNotes).cells summarySheetName 3 1
        = "SheetIndex=2;SheetName=Notes".data ∧
     (annotate_sheet_structure_wb wbDataNotes).cells summarySheetName 4 1
        = "SheetIndex=3;SheetName=Sheet_Structure_Summary".data ∧
     (annotate_sheet_structure_wb wbDataNotes).sheetNames
        = ["Data".data, "Notes".data, summarySheetName]) := by
  refine ⟨?_, by decide, by decide⟩
  intro names h
  unfold annotate_sheet_structure_text
  rw [splitOnNl_line_append summaryHeader _ (by decide)]
  rw [splitOnNl_joinNl (summaryBody 1 names) ?_]
  intro l hl
  obtain ⟨j, n, hn, rfl⟩ := summaryBody_mem names 1 l hl
  exact summaryLine_no_nl j n (h n hn)

/-- Witness for C7: the quantified text-form characterization instantiated at the
concrete sheet list of the claim. -/
theorem c7_sheet_structure_summary_witness :
    (∀ n ∈ [("Data".data : List Char), "Notes".data], '\n' ∉ n) ∧
    splitOnNl (annotate_sheet_structure_text ["Data".data, "Notes".data])
      = summaryHeader :: (summaryBody 1 ["Data".data, "Notes".data] ++ [[]]) :=
  ⟨by decide, c7_sheet_structure_summary.1 ["Data".data, "Notes".data] (by decide)⟩

/-- C8: annotate_sheet_structure reuses an existing Sheet_Structure_Summary sheet
and never creates a second one: a workbook that already contains the sheet keeps
exactly its sheet-name list, and running the function twice gives the same
sheet-name list as running it once. -/
theorem c8_summary_sheet_not_duplicated :
    (∀ wb : Workbook, summarySheetName ∈ wb.sheetNames →
      (annotate_sheet_structure_wb wb).sheetNames = wb.sheetNames) ∧
    (∀ wb : Workbook,
      (annotate_sheet_structure_wb (annotate_sheet_structure_wb wb)).sheetNames
        = (annotate_sheet_structure_wb wb).sheetNames) := by
  have hreuse : ∀ wb : Workbook, summarySheetName ∈ wb.sheetNames →
      (annotate_sheet_structure_wb wb).sheetNames = wb.sheetNames := by
    intro wb h
    simp [annotate_sheet_structure_wb, h]
  have hmem : ∀ wb : Workbook,
      summarySheetName ∈ (annotate_sheet_structure_wb wb).sheetNames := by
    intro wb
    by_cases h : summarySheetName ∈ wb.sheetNames
    · rw [hreuse wb h]; exact h
    · simp [annotate_sheet_structure_wb, h]
  exact ⟨hreuse, fun wb => hreuse _ (hmem wb)⟩

/-- The workbook of the C8 witness: the summary sheet is already present. -/
def wbWithSummary : Workbook :=
  { sheetNames := ["Data".data, summarySheetName],
    cells := fun _ _ _ => [],
    merged := fun _ => [] }

/-- Witness for C8: reuse on a concrete workbook that already has the sheet. -/
theorem c8_summary_sheet_not_duplicated_witness :
    summarySheetName ∈ wbWithSummary.sheetNames ∧
    (annotate_sheet_structure_wb wbWithSummary).sheetNames = wbWithSummary.sheetNames :=
  ⟨by decide, c8_summary_sheet_not_duplicated.1 wbWithSummary (by decide)⟩

/-! ## unmerge_cells_and_annotate (excelrefine.py) -/

/-- A worksheet in isolation: cell values and merged ranges. -/
structure Worksheet where
  cellVal : Nat → Nat → List Char
  merged : List MergedRange

/-- Write one cell of a worksheet's value function. -/
def setVal (g : Nat → Nat → List Char) (r c : Nat) (v : List Char) :
    Nat → Nat → List Char :=
  fun r' c' => if r' = r ∧ c' = c then v else g r' c'

/-- Range membership with inclusive 1-based bounds. -/
def inRange (mr : MergedRange) (r c : Nat) : Prop :=
  mr.minRow ≤ r ∧ r ≤ mr.maxRow ∧ mr.minCol ≤ c ∧ c ≤ mr.maxCol

/-- The cells of a range, in the order of the source's two nested loops
range(min_row, max_row + 1) and range(min_col, max_col + 1). -/
def rangeCells (mr : MergedRange) : List (Nat × Nat) :=
  (List.range' mr.minRow (mr.maxRow + 1 - mr.minRow)).flatMap
    (fun r => (List.range' mr.minCol (mr.maxCol + 1 - mr.minCol)).map (fun c => (r, c)))

/-- str(merged_range) as printed by openpyxl CellRange: A1-style bounds joined
by a colon (single-cell ranges print without the colon). -/
def rangeStr (mr : MergedRange) : List Char :=
  if mr.minRow = mr.maxRow ∧ mr.minCol = mr.maxCol then coordOf mr.minRow mr.minCol
  else coordOf mr.minRow mr.minCol ++ ':' :: coordOf mr.maxRow mr.maxCol

def mergedTag : List Char := "##MergedRange=".data

/-- Processing of one merged range: the top-left value is captured from the cells
as they are before this range's writes; that value (or the empty string when
falsy) is copied into every cell of the range; finally the top-left cell is
overwritten with the annotated value, with the annotation appended to the value
when the value is truthy and standing alone otherwise. -/
def processRange (g : Nat → Nat → List Char) (mr : MergedRange) :
    Nat → Nat → List Char :=
  setVal
    ((rangeCells mr).foldl
      (fun h rc => setVal h rc.1 rc.2
        (if g mr.minRow mr.minCol = [] then [] else g mr.minRow mr.minCol))
      g)
    mr.minRow mr.minCol
    (if g mr.minRow mr.minCol = [] then mergedTag ++ rangeStr mr
     else g mr.minRow mr.minCol ++ mergedTag ++ rangeStr mr)

/-- One iteration of the loop: rewrite the cells and dissolve (erase) the range. -/
def annotateStep (st : (Nat → Nat → List Char) × List MergedRange) (mr : MergedRange) :
    (Nat → Nat → List Char) × List MergedRange :=
  (processRange st.1 mr, st.2.erase mr)

/-- unmerge_cells_and_annotate: iterate over a copy of the merged-range list,
unmerging each range and annotating its cells. -/
def unmerge_cells_and_annotate (ws : Worksheet) : Worksheet :=
  let st := ws.merged.foldl annotateStep (ws.cellVal, ws.merged)
  { cellVal := st.1, merged := st.2 }

/-- Two ranges are disjoint when no cell lies in both. -/
def disjointMR (a b : MergedRange) : Prop :=
  ∀ r c, inRange a r c → ¬ inRange b r c

theorem foldl_annotateStep_split : ∀ (l : List MergedRange)
    (g : Nat → Nat → List Char) (m : List MergedRange),
    l.foldl annotateStep (g, m)
      = (l.foldl processRange g, l.foldl (fun acc mr => acc.erase mr) m) := by
  intro l
  induction l with
  | nil => intro g m; rfl
  | cons a t ih => intro g m; rw [List.foldl_cons, List.foldl_cons, List.foldl_cons]; exact ih _ _

theorem foldl_erase_self : ∀ l : List MergedRange,
    l.foldl (fun acc mr => acc.erase mr) l = [] := by
  intro l
  induction l with
  | nil => rfl
  | cons a t ih =>
    rw [List.foldl_cons, List.erase_cons_head]
    exact ih

theorem foldl_setVal_lookup : ∀ (cells : List (Nat × Nat)) (g : Nat → Nat → List Char)
    (v : List Char) (r c : Nat),
    (cells.foldl (fun h rc => setVal h rc.1 rc.2 v) g) r c
      = if (r, c) ∈ cells then v else g r c := by
  intro cells
  induction cells with
  | nil => intro g v r c; simp
  | cons a t ih =>
    intro g v r c
    rw [List.foldl_cons, ih]
    by_cases hm : (r, c) ∈ t
    · rw [if_pos hm, if_pos (List.mem_cons_of_mem _ hm)]
    · rw [if_neg hm]
      by_cases he : (r, c) = a
      · rw [if_pos (by simp [he]), setVal,
          if_pos (by rw [← he]; exact ⟨rfl, rfl⟩)]
      · rw [if_neg (by simp [he, hm]), setVal,
          if_neg (by intro hrc; exact he (by obtain ⟨h1, h2⟩ := hrc; subst h1; subst h2; cases a; rfl))]

theorem mem_rangeCells (mr : MergedRange) (r c : Nat) :
    (r, c) ∈ rangeCells mr ↔ inRange mr r c := by
  unfold rangeCells inRange
  simp only [List.mem_flatMap, List.mem_map, List.mem_range']
  constructor
  · rintro ⟨a, ⟨i, hi, rfl⟩, b, ⟨j, hj, rfl⟩, heq⟩
    obtain ⟨h1, h2⟩ := Prod.mk.injEq .. ▸ heq
    omega
  · rintro ⟨h1, h2, h3, h4⟩
    exact ⟨r, ⟨r - mr.minRow, by omega, by omega⟩, c, ⟨c - mr.minCol, by omega, by omega⟩, rfl⟩

theorem setVal_same (g : Nat → Nat → List Char) (r c : Nat) (v : List Char) :
    setVal g r c v r c = v := by
  unfold setVal
  rw [if_pos (And.intro rfl rfl)]

theorem setVal_other (g : Nat → Nat → List Char) (r c : Nat) (v : List Char)
    (r' c' : Nat) (h : ¬ (r' = r ∧ c' = c)) : setVal g r c v r' c' = g r' c' := by
  unfold setVal
  rw [if_neg h]

theorem processRange_topleft (g : Nat → Nat → List Char) (mr : MergedRange) :
    processRange g mr mr.minRow mr.minCol
      = g mr.minRow mr.minCol ++ mergedTag ++ rangeStr mr := by
  unfold processRange
  rw [setVal_same]
  by_cases hv : g mr.minRow mr.minCol = []
  · rw [if_pos hv, hv]
    simp
  · rw [if_neg hv]

theorem processRange_inside (g : Nat → Nat → List Char) (mr : MergedRange) (r c : Nat)
    (hin : inRange mr r c) (hne : ¬ (r = mr.minRow ∧ c = mr.minCol)) :
    processRange g mr r c = g mr.minRow mr.minCol := by
  unfold processRange
  rw [setVal_other _ _ _ _ _ _ hne, foldl_setVal_lookup,
    if_pos ((mem_rangeCells mr r c).mpr hin)]
  by_cases hv : g mr.minRow mr.minCol = []
  · rw [if_pos hv, hv]
  · rw [if_neg hv]

theorem processRange_outside (g : Nat → Nat → List Char) (mr : MergedRange) (r c : Nat)
    (hr : mr.minRow ≤ mr.maxRow) (hc : mr.minCol ≤ mr.maxCol)
    (hout : ¬ inRange mr r c) :
    processRange g mr r c = g r c := by
  have htl : inRange mr mr.minRow mr.minCol := ⟨le_refl _, hr, le_refl _, hc⟩
  have hne : ¬ (r = mr.minRow ∧ c = mr.minCol) := by
    rintro ⟨rfl, rfl⟩
    exact hout htl
  unfold processRange
  rw [setVal_other _ _ _ _ _ _ hne, foldl_setVal_lookup,
    if_neg (fun hm => hout ((mem_rangeCells mr r c).mp hm))]

theorem fold_processRange_untouched : ∀ (l : List MergedRange)
    (g : Nat → Nat → List Char) (r c : Nat),
    (∀ x ∈ l, x.minRow ≤ x.maxRow ∧ x.minCol ≤ x.maxCol) →
    (∀ x ∈ l, ¬ inRange x r c) →
    (l.foldl processRange g) r c = g r c := by
  intro l
  induction l with
  | nil => intro g r c _ _; rfl
  | cons a t ih =>
    intro g r c hv hout
    rw [List.foldl_cons,
      ih _ r c (fun x hx => hv x (List.mem_cons_of_mem _ hx))
        (fun x hx => hout x (List.mem_cons_of_mem _ hx)),
      processRange_outside g a r c (hv a (by simp)).1 (hv a (by simp)).2 (hout a (by simp))]

theorem fold_processRange_spec : ∀ (l : List MergedRange) (g : Nat → Nat → List Char)
    (mr : MergedRange), mr ∈ l → List.Pairwise disjointMR l →
    (∀ x ∈ l, x.minRow ≤ x.maxRow ∧ x.minCol ≤ x.maxCol) →
    (l.foldl processRange g) mr.minRow mr.minCol
        = g mr.minRow mr.minCol ++ mergedTag ++ rangeStr mr ∧
    (∀ r c, inRange mr r c → ¬ (r = mr.minRow ∧ c = mr.minCol) →
      (l.foldl processRange g) r c = g mr.minRow mr.minCol) := by
  intro l
  induction l with
  | nil => intro g mr h; intro _ _; simp at h
  | cons a t ih =>
    intro g mr hmr hpw hv
    rw [List.foldl_cons]
    have hvt : ∀ x ∈ t, x.minRow ≤ x.maxRow ∧ x.minCol ≤ x.maxCol :=
      fun x hx => hv x (List.mem_cons_of_mem _ hx)
    rcases List.mem_cons.mp hmr with rfl | hmem
    · have hdisj : ∀ x ∈ t, ∀ r c, inRange mr r c → ¬ inRange x r c :=
        fun x hx r c hin => (List.pairwise_cons.mp hpw).1 x hx r c hin
      have htl : inRange mr mr.minRow mr.minCol :=
        ⟨le_refl _, (hv mr (by simp)).1, le_refl _, (hv mr (by simp)).2⟩
      constructor
      · rw [fold_processRange_untouched t _ _ _ hvt (fun x hx => hdisj x hx _ _ htl),
          processRange_topleft]
      · intro r c hin hne
        rw [fold_processRange_untouched t _ _ _ hvt (fun x hx => hdisj x hx _ _ hin),
          processRange_inside g mr r c hin hne]
    · have hpwt := (List.pairwise_cons.mp hpw).2
      have hda : disjointMR a mr := (List.pairwise_cons.mp hpw).1 mr hmem
      have htl : inRange mr mr.minRow mr.minCol :=
        ⟨le_refl _, (hv mr hmr).1, le_refl _, (hv mr hmr).2⟩
      have hnotin : ¬ inRange a mr.minRow mr.minCol := fun hin => hda _ _ hin htl
      have hg' : processRange g a mr.minRow mr.minCol = g mr.minRow mr.minCol :=
        processRange_outside g a _ _ (hv a (by simp)).1 (hv a (by simp)).2 hnotin
      obtain ⟨ih1, ih2⟩ := ih (processRange g a) mr hmem hpwt hvt
      constructor
      · rw [ih1, hg']
      · intro r c hin hne
        rw [ih2 r c hin hne, hg']

/-- C4: for a worksheet whose merged ranges are pairwise disjoint and well-formed,
after unmerge_cells_and_annotate: the merged-range list is empty (so every cell of
every range is independently addressable); the top-left cell of each range with
captured value V holds V followed by the annotation when V is non-empty and the
bare annotation when V is empty; every other cell of the range holds V. -/
theorem c4_unmerge_cells_and_annotate (ws : Worksheet)
    (hpw : List.Pairwise disjointMR ws.merged)
    (hv : ∀ x ∈ ws.merged, x.minRow ≤ x.maxRow ∧ x.minCol ≤ x.maxCol)
    (mr : MergedRange) (hmr : mr ∈ ws.merged) :
    (unmerge_cells_and_annotate ws).merged = [] ∧
    (ws.cellVal mr.minRow mr.minCol ≠ [] →
      (unmerge_cells_and_annotate ws).cellVal mr.minRow mr.minCol
        = ws.cellVal mr.minRow mr.minCol ++ mergedTag ++ rangeStr mr) ∧
    (ws.cellVal mr.minRow mr.minCol = [] →
      (unmerge_cells_and_annotate ws).cellVal mr.minRow mr.minCol
        = mergedTag ++ rangeStr mr) ∧
    (∀ r c, inRange mr r c → ¬ (r = mr.minRow ∧ c = mr.minCol) →
      (unmerge_cells_and_annotate ws).cellVal r c = ws.cellVal mr.minRow mr.minCol) := by
  have hcell : (unmerge_cells_and_annotate ws).cellVal
      = ws.merged.foldl processRange ws.cellVal := by
    unfold unmerge_cells_and_annotate
    rw [foldl_annotateStep_split]
  have hmerged : (unmerge_cells_and_annotate ws).merged = [] := by
    unfold unmerge_cells_and_annotate
    rw [foldl_annotateStep_split]
    exact foldl_erase_self ws.merged
  obtain ⟨h1, h2⟩ := fold_processRange_spec ws.merged ws.cellVal mr hmr hpw hv
  refine ⟨hmerged, fun _ => ?_, fun hz => ?_, fun r c hin hne => ?_⟩
  · rw [hcell, h1]
  · rw [hcell, h1, hz]
    simp
  · rw [hcell, h2 r c hin hne]

/-- The 2 by 2 merged range over rows 1-2 and columns 1-2 of the C4 example. -/
def mr2x2 : MergedRange := ⟨1, 1, 2, 2⟩

/-- The worksheet of the C4 example: top-left value Hello, one 2 by 2 merge. -/
def ws2x2 : Worksheet :=
  { cellVal := fun r c => if r = 1 ∧ c = 1 then "Hello".data else [],
    merged := [mr2x2] }

/-- Witness for C4: the 2x2 example of the claim, evaluated concretely. -/
theorem c4_unmerge_cells_and_annotate_witness :
    List.Pairwise disjointMR ws2x2.merged ∧
    (∀ x ∈ ws2x2.merged, x.minRow ≤ x.maxRow ∧ x.minCol ≤ x.maxCol) ∧
    mr2x2 ∈ ws2x2.merged ∧
    (unmerge_cells_and_annotate ws2x2).merged = [] ∧
    (unmerge_cells_and_annotate ws2x2).cellVal 1 1 = "Hello##MergedRange=A1:B2".data ∧
    (unmerge_cells_and_annotate ws2x2).cellVal 1 2 = "Hello".data ∧
    (unmerge_cells_and_annotate ws2x2).cellVal 2 1 = "Hello".data ∧
    (unmerge_cells_and_annotate ws2x2).cellVal 2 2 = "Hello".data := by
  have hpw : List.Pairwise disjointMR ws2x2.merged := List.pairwise_singleton _ _
  have hv : ∀ x ∈ ws2x2.merged, x.minRow ≤ x.maxRow ∧ x.minCol ≤ x.maxCol := by
    intro x hx
    have hxe : x = mr2x2 := by simpa [ws2x2] using hx
    subst hxe
    exact ⟨by norm_num [mr2x2], by norm_num [mr2x2]⟩
  have h := c4_unmerge_cells_and_annotate ws2x2 hpw hv mr2x2 (by simp [ws2x2])
  refine ⟨hpw, hv, by simp [ws2x2], h.1, ?_, ?_, ?_, ?_⟩
  · exact (h.2.1 (by decide)).trans (by decide)
  · exact (h.2.2.2 1 2 (by simp [inRange, mr2x2]) (by decide)).trans (by decide)
  · exact (h.2.2.2 2 1 (by simp [inRange, mr2x2]) (by decide)).trans (by decide)
  · exact (h.2.2.2 2 2 (by simp [inRange, mr2x2]) (by decide)).trans (by decide)

/-! ## Coordinate extraction (the regex search of create_excel_like_grid) -/

/-- Unanchored first-match search for the pattern of one-or-more uppercase letters
followed by one-or-more digits, as pandas str.extract with ([A-Z]+)(\d+) (re.search
semantics). Returns the captured letter run and digit run, or none when the string
has no match anywhere. Fuel-based; fuel at least the length of the string. -/
def extractCoordAux : Nat → List Char → Option (List Char × List Char)
  | 0, _ => none
  | _ + 1, [] => none
  | fuel + 1, ch :: rest =>
    if isUpperAZ ch then
      match (ch :: rest).dropWhile isUpperAZ with
      | [] => none
      | d :: ds =>
        if isDigitCh d then
          some ((ch :: rest).takeWhile isUpperAZ, (d :: ds).takeWhile isDigitCh)
        else extractCoordAux fuel (d :: ds)
    else extractCoordAux fuel rest

/-- First match of ([A-Z]+)(\d+) in a string, as re.search. -/
def extractCoord (s : List Char) : Option (List Char × List Char) :=
  extractCoordAux s.length s

theorem length_dropWhile_le_self (p : Char → Bool) : ∀ l : List Char,
    (l.dropWhile p).length ≤ l.length := by
  intro l
  induction l with
  | nil => simp
  | cons c rest ih =>
    rw [List.dropWhile_cons]
    by_cases h : p c
    · rw [if_pos h]
      simp only [List.length_cons]
      omega
    · rw [if_neg h]

theorem extractCoordAux_congr : ∀ f1 f2 (s : List Char), s.length ≤ f1 → s.length ≤ f2 →
    extractCoordAux f1 s = extractCoordAux f2 s := by
  intro f1
  induction f1 with
  | zero =>
    intro f2 s h1 _
    have : s = [] := List.length_eq_zero.mp (by omega)
    subst this
    cases f2 <;> rfl
  | succ g ih =>
    intro f2 s h1 h2
    cases s with
    | nil => cases f2 <;> rfl
    | cons ch rest =>
      have hf2 : ∃ h, f2 = h + 1 := ⟨f2 - 1, by simp at h2; omega⟩
      obtain ⟨h, rfl⟩ := hf2
      simp only [extractCoordAux]
      by_cases hu : isUpperAZ ch
      · rw [if_pos hu, if_pos hu]
        have hdw : (ch :: rest).dropWhile isUpperAZ = rest.dropWhile isUpperAZ := by
          rw [List.dropWhile_cons_of_pos hu]
        cases hdd : (ch :: rest).dropWhile isUpperAZ with
        | nil => rfl
        | cons d ds =>
          dsimp only
          by_cases hd : isDigitCh d
          · rw [if_pos hd, if_pos hd]
          · rw [if_neg hd, if_neg hd]
            have hlen : (d :: ds).length ≤ rest.length := by
              rw [hdw] at hdd
              have := length_dropWhile_le_self isUpperAZ rest
              rw [hdd] at this
              exact this
            refine ih h (d :: ds) ?_ ?_ <;>
              · simp only [List.length_cons] at h1 h2 hlen ⊢
                omega
      · rw [if_neg hu, if_neg hu]
        exact ih h rest (by simp at h1; omega) (by simp at h2; omega)

theorem extractCoord_cons_not_upper (ch : Char) (rest : List Char)
    (h : ¬ isUpperAZ ch = true) :
    extractCoord (ch :: rest) = extractCoord rest := by
  unfold extractCoord
  rw [show (ch :: rest).length = rest.length + 1 from rfl]
  simp only [extractCoordAux, if_neg h]

/-- On a well-formed coordinate (letters then digits), the search returns exactly
the two runs. Stated on the concatenated form. -/
theorem extractCoord_wellformed (ls ds : List Char) (hls : ls ≠ [])
    (hlu : ∀ c ∈ ls, isUpperAZ c = true) (hds : ds ≠ [])
    (hdd : ∀ c ∈ ds, isDigitCh c = true) :
    extractCoord (ls ++ ds) = some (ls, ds) := by
  obtain ⟨ch, lrest, rfl⟩ := List.exists_cons_of_ne_nil hls
  obtain ⟨d0, drest, rfl⟩ := List.exists_cons_of_ne_nil hds
  have hd0u : isUpperAZ d0 = false := not_upper_of_digit d0 (hdd d0 (by simp))
  have hdw : ((ch :: lrest) ++ d0 :: drest).dropWhile isUpperAZ = d0 :: drest := by
    rw [List.dropWhile_append_of_pos hlu, List.dropWhile_cons_of_neg (by rw [hd0u]; simp)]
  have htw : ((ch :: lrest) ++ d0 :: drest).takeWhile isUpperAZ = ch :: lrest := by
    rw [List.takeWhile_append_of_pos hlu, List.takeWhile_cons_of_neg (by rw [hd0u]; simp)]
    simp
  have htd : (d0 :: drest).takeWhile isDigitCh = d0 :: drest :=
    List.takeWhile_eq_self_iff.mpr hdd
  unfold extractCoord
  rw [show ((ch :: lrest) ++ d0 :: drest).length
      = (lrest ++ d0 :: drest).length + 1 from by simp]
  rw [show (ch :: lrest) ++ d0 :: drest = ch :: (lrest ++ d0 :: drest) from rfl] at hdw htw ⊢
  simp only [extractCoordAux, if_pos (hlu ch (by simp))]
  rw [hdw]
  simp only [if_pos (hdd d0 (by simp))]
  rw [htw, htd]

/-! ## Grid reconstruction (md2excel_tbl.create_excel_like_grid) -/

/-- Resolution of one coordinate position to (row, column): the regex extract,
int() on the digit run, and the base-26 conversion on the letter run. none models
the non-matching case, in which the source raises (reversed() applied to the NaN
produced by str.extract, and astype(int) on NaN). -/
def resolveCoord (s : List Char) : Option (Nat × Nat) :=
  (extractCoord s).map (fun p => (digitsToNat p.2, colToInt p.1))

/-- Resolution of all (position, data) pairs of a sheet. none models the raised
exception as soon as any coordinate has no match. -/
def resolveEntries : List (List Char × List Char) → Option (List (Nat × Nat × List Char))
  | [] => some []
  | p :: ps =>
    match resolveCoord p.1, resolveEntries ps with
    | some rc, some es => some ((rc.1, rc.2, p.2) :: es)
    | _, _ => none

/-- A reconstructed dense grid: index bounds 1..nRows and 1..nCols, and the cell
contents (empty string everywhere no value was placed, as fillna). -/
structure Grid where
  nRows : Nat
  nCols : Nat
  cell : Nat → Nat → List Char

/-- The sequential placement loop: grid.loc[row, column] = data over df rows. -/
def buildCells (entries : List (Nat × Nat × List Char)) : Nat → Nat → List Char :=
  entries.foldl (fun g e => setVal g e.1 e.2.1 e.2.2) (fun _ _ => [])

/-- df Row maximum (0 for no entries; the source always has at least one row). -/
def maxRowOf (entries : List (Nat × Nat × List Char)) : Nat :=
  entries.foldl (fun a e => max a e.1) 0

/-- df Column maximum. -/
def maxColOf (entries : List (Nat × Nat × List Char)) : Nat :=
  entries.foldl (fun a e => max a e.2.1) 0

/-- create_excel_like_grid for one sheet's accumulated (position, data) pairs:
resolve every coordinate, compute the maxima, and place each value in order.
none models the exception raised on a coordinate with no pattern match. -/
def create_excel_like_grid (pairs : List (List Char × List Char)) : Option Grid :=
  (resolveEntries pairs).map (fun es =>
    { nRows := maxRowOf es, nCols := maxColOf es, cell := buildCells es })

/-- The loop over tables.items(): one grid per parsed sheet; none as soon as one
sheet raises. -/
def createAllGrids : List (List Char × List (List Char × List Char)) →
    Option (List (List Char × Grid))
  | [] => some []
  | t :: ts =>
    match create_excel_like_grid t.2, createAllGrids ts with
    | some g, some gs => some ((t.1, g) :: gs)
    | _, _ => none

/-- Entries at distinct (row, column) positions. -/
def distinctPos (entries : List (Nat × Nat × List Char)) : Prop :=
  List.Pairwise (fun e1 e2 => ¬ (e1.1 = e2.1 ∧ e1.2.1 = e2.2.1)) entries

theorem foldl_setVal_entries_untouched : ∀ (es : List (Nat × Nat × List Char))
    (g : Nat → Nat → List Char) (r c : Nat),
    (∀ x ∈ es, ¬ (x.1 = r ∧ x.2.1 = c)) →
    (es.foldl (fun g e => setVal g e.1 e.2.1 e.2.2) g) r c = g r c := by
  intro es
  induction es with
  | nil => intro g r c _; rfl
  | cons a t ih =>
    intro g r c h
    rw [List.foldl_cons, ih _ r c (fun x hx => h x (List.mem_cons_of_mem _ hx)),
      setVal_other]
    intro ⟨h1, h2⟩
    exact h a (by simp) ⟨h1.symm, h2.symm⟩

theorem foldl_setVal_entries_mem : ∀ (es : List (Nat × Nat × List Char))
    (g : Nat → Nat → List Char) (e : Nat × Nat × List Char),
    e ∈ es → distinctPos es →
    (es.foldl (fun g e => setVal g e.1 e.2.1 e.2.2) g) e.1 e.2.1 = e.2.2 := by
  intro es
  induction es with
  | nil => intro g e h _; simp at h
  | cons a t ih =>
    intro g e he hd
    rw [List.foldl_cons]
    rcases List.mem_cons.mp he with rfl | hmem
    · rw [foldl_setVal_entries_untouched t _ e.1 e.2.1
        (fun x hx hxe => (List.pairwise_cons.mp hd).1 x hx ⟨hxe.1.symm, hxe.2.symm⟩),
        setVal_same]
    · exact ih _ e hmem (List.pairwise_cons.mp hd).2

theorem foldl_max_shift (f : Nat × Nat × List Char → Nat) :
    ∀ (l : List (Nat × Nat × List Char)) (a : Nat),
    l.foldl (fun x e => max x (f e)) a = max a (l.foldl (fun x e => max x (f e)) 0) := by
  intro l
  induction l with
  | nil => intro a; simp
  | cons e t ih =>
    intro a
    rw [List.foldl_cons, List.foldl_cons, ih (max a (f e)), ih (max 0 (f e))]
    omega

theorem foldl_max_ge (f : Nat × Nat × List Char → Nat) :
    ∀ (l : List (Nat × Nat × List Char)) (e : Nat × Nat × List Char), e ∈ l →
    f e ≤ l.foldl (fun x e => max x (f e)) 0 := by
  intro l
  induction l with
  | nil => intro e h; simp at h
  | cons a t ih =>
    intro e he
    rw [List.foldl_cons, foldl_max_shift]
    rcases List.mem_cons.mp he with rfl | hmem
    · omega
    · have := ih e hmem
      omega

theorem foldl_max_attained (f : Nat × Nat × List Char → Nat) :
    ∀ (l : List (Nat × Nat × List Char)), l ≠ [] →
    ∃ e ∈ l, l.foldl (fun x e => max x (f e)) 0 = f e := by
  intro l
  induction l with
  | nil => intro h; exact absurd rfl h
  | cons a t ih =>
    intro _
    rw [List.foldl_cons, foldl_max_shift]
    by_cases ht : t = []
    · subst ht
      exact ⟨a, by simp, by simp⟩
    · obtain ⟨e, he, heq⟩ := ih ht
      by_cases hcmp : f a ≤ t.foldl (fun x e => max x (f e)) 0
      · exact ⟨e, List.mem_cons_of_mem _ he, by omega⟩
      · exact ⟨a, by simp, by omega⟩

/-! ## Markdown parser (md2excel_tbl.parse_markdown_to_table) -/

def sheetMarker : List Char := "## ".data

def cellMarker : List Char := "### ".data

/-- Parser state: finalized tables, the open sheet name (none before the first
section line), and the accumulated (position, data) pairs of the open sheet. -/
structure ParseState where
  tables : List (List Char × List (List Char × List Char))
  currentSheet : Option (List Char)
  currentData : List (List Char × List Char)

/-- Python truthiness of current_sheet: not None and not the empty string. -/
def sheetTruthy (o : Option (List Char)) : Bool :=
  match o with
  | some s => !s.isEmpty
  | none => false

/-- Finalization: tables[current_sheet] = DataFrame(current_data), guarded by the
truthiness of both. The dict is modelled as an association list where a duplicate
sheet name appends a later binding and lookups take the last binding. -/
def finalizeState (st : ParseState) :
    List (List Char × List (List Char × List Char)) :=
  if sheetTruthy st.currentSheet = true ∧ st.currentData ≠ [] then
    st.tables ++ [(st.currentSheet.getD [], st.currentData)]
  else st.tables

/-- One line of the loop body of parse_markdown_to_table. -/
def parseLine (st : ParseState) (line : List Char) : ParseState :=
  if sheetMarker.isPrefixOf line then
    { tables := finalizeState st,
      currentSheet := some (pyStrip (removeAll sheetMarker line)),
      currentData := [] }
  else if cellMarker.isPrefixOf line ∧ sheetTruthy st.currentSheet = true then
    match pySplitColon1 (removeAll cellMarker line) with
    | [a, b] => { st with currentData := st.currentData ++ [(pyStrip a, pyStrip b)] }
    | _ => st
  else st

/-- parse_markdown_to_table: split the content on newlines, run the line loop,
then flush the still-open sheet. -/
def parse_markdown_to_table (content : List Char) :
    List (List Char × List (List Char × List Char)) :=
  finalizeState ((splitOnNl content).foldl parseLine ⟨[], none, []⟩)

/-- Dict read of a sheet's accumulated pairs: last binding wins; a sheet that was
never finalized has no pairs. -/
def tablesGet (tables : List (List Char × List (List Char × List Char)))
    (name : List Char) : List (List Char × List Char) :=
  match tables.reverse.find? (fun t => t.1 == name) with
  | some t => t.2
  | none => []

/-- C6: the claim says grid reconstruction must not crash on a coordinate that does
not match the letters-then-digits pattern, skipping the entry. The code instead
raises: str.extract yields NaN for the non-matching position ZZ, and both
reversed(NaN) in the column lambda and astype(int) on the row column raise. The
model returns none (the raised exception) for the whole reconstruction, so no grid
is produced at all and the well-formed entry A1 is lost with it. -/
theorem c6_malformed_coordinate_crashes :
    parse_markdown_to_table "## S\n### ZZ: v\n### A1: x\n".data
      = [("S".data, [("ZZ".data, "v".data), ("A1".data, "x".data)])] ∧
    extractCoord "ZZ".data = none ∧
    (createAllGrids (parse_markdown_to_table "## S\n### ZZ: v\n### A1: x\n".data)).isNone
      = true ∧
    (create_excel_like_grid [("A1".data, "x".data)]).isSome = true := by
  refine ⟨by decide, by decide, by decide, by decide⟩

theorem resolveEntries_append : ∀ (l1 l2 : List (List Char × List Char))
    (e1 e2 : List (Nat × Nat × List Char)),
    resolveEntries l1 = some e1 → resolveEntries l2 = some e2 →
    resolveEntries (l1 ++ l2) = some (e1 ++ e2) := by
  intro l1
  induction l1 with
  | nil =>
    intro l2 e1 e2 h1 h2
    simp only [resolveEntries] at h1
    obtain rfl := Option.some.injEq .. ▸ h1
    simpa using h2
  | cons p ps ih =>
    intro l2 e1 e2 h1 h2
    simp only [resolveEntries] at h1
    cases hc : resolveCoord p.1 with
    | none => rw [hc] at h1; simp at h1
    | some rc =>
      rw [hc] at h1
      cases hps : resolveEntries ps with
      | none => rw [hps] at h1; simp at h1
      | some es =>
        rw [hps] at h1
        simp only [Option.some.injEq] at h1
        subst h1
        rw [List.cons_append]
        simp only [resolveEntries, hc, ih l2 es e2 hps h2]
        rfl

theorem foldl_max_cons (f : Nat × Nat × List Char → Nat) (e : Nat × Nat × List Char)
    (l : List (Nat × Nat × List Char)) :
    ((e :: l).foldl (fun x e => max x (f e)) 0)
      = max (f e) (l.foldl (fun x e => max x (f e)) 0) := by
  rw [List.foldl_cons, foldl_max_shift]
  omega

theorem foldl_max_append (f : Nat × Nat × List Char → Nat)
    (l1 l2 : List (Nat × Nat × List Char)) :
    ((l1 ++ l2).foldl (fun x e => max x (f e)) 0)
      = max (l1.foldl (fun x e => max x (f e)) 0) (l2.foldl (fun x e => max x (f e)) 0) := by
  rw [List.foldl_append, foldl_max_shift]

theorem buildCells_last_write (A e3s : List (Nat × Nat × List Char)) (r c : Nat)
    (v : List Char) (hlast : ∀ x ∈ e3s, ¬ (x.1 = r ∧ x.2.1 = c)) :
    buildCells (A ++ (r, c, v) :: e3s) r c = v := by
  unfold buildCells
  rw [List.foldl_append, List.foldl_cons,
    foldl_setVal_entries_untouched e3s _ r c hlast, setVal_same]

/-- C3: for a parsed sheet whose accumulated pairs all resolve (1-based rows), the
reconstruction succeeds and yields a dense grid: nRows and nCols are the maxima of
the resolved rows and columns (attained by some entry), every resolved entry's
value sits at its (row, column) inside those bounds, and every other position
holds the empty string. -/
theorem c3_grid_dense_reconstruction (pairs : List (List Char × List Char))
    (entries : List (Nat × Nat × List Char))
    (hres : resolveEntries pairs = some entries)
    (hd : distinctPos entries)
    (hrow1 : ∀ e ∈ entries, 1 ≤ e.1) :
    ∃ g : Grid, create_excel_like_grid pairs = some g ∧
      g.nRows = maxRowOf entries ∧ g.nCols = maxColOf entries ∧
      (∀ e ∈ entries, 1 ≤ e.1 ∧ e.1 ≤ g.nRows ∧ e.2.1 ≤ g.nCols) ∧
      (entries ≠ [] →
        (∃ e ∈ entries, g.nRows = e.1) ∧ (∃ e ∈ entries, g.nCols = e.2.1)) ∧
      (∀ e ∈ entries, g.cell e.1 e.2.1 = e.2.2) ∧
      (∀ r c, (∀ e ∈ entries, ¬ (e.1 = r ∧ e.2.1 = c)) → g.cell r c = []) := by
  have hcreate : create_excel_like_grid pairs
      = some { nRows := maxRowOf entries, nCols := maxColOf entries,
               cell := buildCells entries } := by
    unfold create_excel_like_grid
    rw [hres]
    rfl
  refine ⟨_, hcreate, rfl, rfl, ?_, ?_, ?_, ?_⟩
  · intro e he
    exact ⟨hrow1 e he, foldl_max_ge (fun e => e.1) entries e he,
      foldl_max_ge (fun e => e.2.1) entries e he⟩
  · intro hne
    obtain ⟨e1, he1, heq1⟩ := foldl_max_attained (fun e => e.1) entries hne
    obtain ⟨e2, he2, heq2⟩ := foldl_max_attained (fun e => e.2.1) entries hne
    exact ⟨⟨e1, he1, heq1⟩, ⟨e2, he2, heq2⟩⟩
  · intro e he
    exact foldl_setVal_entries_mem entries _ e he hd
  · intro r c h
    exact foldl_setVal_entries_untouched entries _ r c h

/-- Witness for C3: the sheet of the claim with entries at A1 and C3 only gives a
3 by 3 grid with the two values placed and the other seven cells empty. -/
theorem c3_grid_dense_reconstruction_witness :
    resolveEntries [("A1".data, "x".data), ("C3".data, "y".data)]
        = some [(1, 1, "x".data), (3, 3, "y".data)] ∧
    distinctPos [(1, 1, "x".data), (3, 3, "y".data)] ∧
    (∀ e ∈ [((1 : Nat), (1 : Nat), "x".data), (3, 3, "y".data)], 1 ≤ e.1) ∧
    (∃ g : Grid,
      create_excel_like_grid [("A1".data, "x".data), ("C3".data, "y".data)] = some g ∧
      g.nRows = 3 ∧ g.nCols = 3 ∧
      g.cell 1 1 = "x".data ∧ g.cell 3 3 = "y".data ∧
      g.cell 1 2 = [] ∧ g.cell 1 3 = [] ∧ g.cell 2 1 = [] ∧ g.cell 2 2 = [] ∧
      g.cell 2 3 = [] ∧ g.cell 3 1 = [] ∧ g.cell 3 2 = []) := by
  have hres : resolveEntries [("A1".data, "x".data), ("C3".data, "y".data)]
      = some [(1, 1, "x".data), (3, 3, "y".data)] := by decide
  have hd : distinctPos [((1 : Nat), (1 : Nat), "x".data), (3, 3, "y".data)] := by
    unfold distinctPos
    refine List.pairwise_cons.mpr ⟨?_, List.pairwise_singleton _ _⟩
    intro e he
    have : e = ((3 : Nat), (3 : Nat), "y".data) := by simpa using he
    subst this
    decide
  have hrow1 : ∀ e ∈ [((1 : Nat), (1 : Nat), "x".data), (3, 3, "y".data)], 1 ≤ e.1 := by
    decide
  obtain ⟨g, hg, hr, hc, _, _, hmem, hempty⟩ :=
    c3_grid_dense_reconstruction _ _ hres hd hrow1
  refine ⟨hres, hd, hrow1, g, hg, ?_, ?_, ?_, ?_, ?_, ?_, ?_, ?_, ?_, ?_, ?_⟩
  · rw [hr]; decide
  · rw [hc]; decide
  · exact hmem (1, 1, "x".data) (by simp)
  · exact hmem (3, 3, "y".data) (by simp)
  · exact hempty 1 2 (by decide)
  · exact hempty 1 3 (by decide)
  · exact hempty 2 1 (by decide)
  · exact hempty 2 2 (by decide)
  · exact hempty 2 3 (by decide)
  · exact hempty 3 1 (by decide)
  · exact hempty 3 2 (by decide)

/-- C10: when two accumulated pairs of a sheet resolve to the same (row, column)
and no later pair does, the reconstructed grid stores the later pair's value at
that cell, and the grid dimensions equal those of the list without the earlier
duplicate. -/
theorem c10_later_duplicate_wins
    (p1 p2 p3 : List (List Char × List Char)) (a1 a2 v1 v2 : List Char)
    (e1s e2s e3s : List (Nat × Nat × List Char)) (r c : Nat)
    (h1 : resolveEntries p1 = some e1s) (h2 : resolveEntries p2 = some e2s)
    (h3 : resolveEntries p3 = some e3s)
    (hc1 : resolveCoord a1 = some (r, c)) (hc2 : resolveCoord a2 = some (r, c))
    (hlast : ∀ x ∈ e3s, ¬ (x.1 = r ∧ x.2.1 = c)) :
    ∃ g g' : Grid,
      create_excel_like_grid (p1 ++ [(a1, v1)] ++ p2 ++ [(a2, v2)] ++ p3) = some g ∧
      create_excel_like_grid (p1 ++ p2 ++ [(a2, v2)] ++ p3) = some g' ∧
      g.cell r c = v2 ∧ g'.cell r c = v2 ∧
      g.nRows = g'.nRows ∧ g.nCols = g'.nCols := by
  have hone1 : resolveEntries [(a1, v1)] = some [(r, c, v1)] := by
    simp [resolveEntries, hc1]
  have hone2 : resolveEntries [(a2, v2)] = some [(r, c, v2)] := by
    simp [resolveEntries, hc2]
  have hresg : resolveEntries (p1 ++ [(a1, v1)] ++ p2 ++ [(a2, v2)] ++ p3)
      = some (e1s ++ [(r, c, v1)] ++ e2s ++ [(r, c, v2)] ++ e3s) :=
    resolveEntries_append _ _ _ _
      (resolveEntries_append _ _ _ _
        (resolveEntries_append _ _ _ _
          (resolveEntries_append _ _ _ _ h1 hone1) h2) hone2) h3
  have hresg' : resolveEntries (p1 ++ p2 ++ [(a2, v2)] ++ p3)
      = some (e1s ++ e2s ++ [(r, c, v2)] ++ e3s) :=
    resolveEntries_append _ _ _ _
      (resolveEntries_append _ _ _ _
        (resolveEntries_append _ _ _ _ h1 h2) hone2) h3
  refine ⟨_, _, by unfold create_excel_like_grid; rw [hresg]; rfl,
    by unfold create_excel_like_grid; rw [hresg']; rfl, ?_, ?_, ?_, ?_⟩
  · show buildCells (e1s ++ [(r, c, v1)] ++ e2s ++ [(r, c, v2)] ++ e3s) r c = v2
    rw [show e1s ++ [(r, c, v1)] ++ e2s ++ [(r, c, v2)] ++ e3s
        = (e1s ++ [(r, c, v1)] ++ e2s) ++ (r, c, v2) :: e3s by simp]
    exact buildCells_last_write _ _ _ _ _ hlast
  · show buildCells (e1s ++ e2s ++ [(r, c, v2)] ++ e3s) r c = v2
    rw [show e1s ++ e2s ++ [(r, c, v2)] ++ e3s
        = (e1s ++ e2s) ++ (r, c, v2) :: e3s by simp]
    exact buildCells_last_write _ _ _ _ _ hlast
  · show maxRowOf (e1s ++ [(r, c, v1)] ++ e2s ++ [(r, c, v2)] ++ e3s)
        = maxRowOf (e1s ++ e2s ++ [(r, c, v2)] ++ e3s)
    unfold maxRowOf
    simp only [foldl_max_append, foldl_max_cons, List.foldl_nil]
    omega
  · show maxColOf (e1s ++ [(r, c, v1)] ++ e2s ++ [(r, c, v2)] ++ e3s)
        = maxColOf (e1s ++ e2s ++ [(r, c, v2)] ++ e3s)
    unfold maxColOf
    simp only [foldl_max_append, foldl_max_cons, List.foldl_nil]
    omega

/-- Witness for C10: a sheet with A1 mapped twice keeps the later value y at
cell (1,1). -/
theorem c10_later_duplicate_wins_witness :
    resolveCoord "A1".data = some (1, 1) ∧
    (∃ g g' : Grid,
      create_excel_like_grid ([] ++ [("A1".data, "x".data)] ++ []
          ++ [("A1".data, "y".data)] ++ []) = some g ∧
      create_excel_like_grid ([] ++ [] ++ [("A1".data, "y".data)] ++ []) = some g' ∧
      g.cell 1 1 = "y".data ∧ g'.cell 1 1 = "y".data ∧
      g.nRows = g'.nRows ∧ g.nCols = g'.nCols) := by
  have hc : resolveCoord "A1".data = some (1, 1) := by decide
  obtain ⟨g, g', hg, hg', hcell, hcell', hr, hcl⟩ :=
    c10_later_duplicate_wins [] [] [] "A1".data "A1".data "x".data "y".data
      [] [] [] 1 1 rfl rfl rfl hc hc (by intro x hx; simp at hx)
  exact ⟨hc, g, g', hg, hg', hcell, hcell', hr, hcl⟩

/-! ## Cell extraction (extract_xlsxcells.extract_non_empty_cells) -/

/-- A source worksheet for extraction: the dimensions seen by iter_rows (max_row
rows of max_column cells) and the cell values. -/
structure SheetData where
  nRows : Nat
  nCols : Nat
  val : Nat → Nat → List Char

/-- extract_non_empty_cells: outer loop over the rows 1..nRows top to bottom,
inner loop over the columns 1..nCols left to right, keeping cells whose value is
truthy, keyed by the A1-style coordinate. -/
def extract_non_empty_cells (sh : SheetData) : List (List Char × List Char) :=
  (List.range' 1 sh.nRows).flatMap (fun r =>
    (List.range' 1 sh.nCols).filterMap (fun c =>
      if sh.val r c = [] then none else some (coordOf r c, sh.val r c)))

/-- Position denoted by a coordinate string (used to state the visitation order). -/
def posOfCoord (s : List Char) : Nat × Nat :=
  match resolveCoord s with
  | some rc => rc
  | none => (0, 0)

/-- Strict row-major order on (row, column) positions. -/
def posLt (p q : Nat × Nat) : Prop := p.1 < q.1 ∨ (p.1 = q.1 ∧ p.2 < q.2)

theorem resolveCoord_coordOf (r c : Nat) (hc : 1 ≤ c) :
    resolveCoord (coordOf r c) = some (r, c) := by
  unfold resolveCoord coordOf
  rw [extractCoord_wellformed (toLetters c) (natDigits r)
    (toLetters_valid c hc).1 (toLetters_valid c hc).2
    (natDigits_ne_nil r) (natDigits_all_digit r)]
  simp [colToInt_toLetters, digitsToNat_natDigits]

theorem posOfCoord_coordOf (r c : Nat) (hc : 1 ≤ c) :
    posOfCoord (coordOf r c) = (r, c) := by
  unfold posOfCoord
  rw [resolveCoord_coordOf r c hc]

/-- Membership in the mapped row segment of the extractor. -/
theorem mem_extract_segment (sh : SheetData) (r : Nat) (x : Nat × Nat)
    (hx : x ∈ ((List.range' 1 sh.nCols).filterMap (fun c =>
        if sh.val r c = [] then none else some (coordOf r c, sh.val r c))).map
          (fun e => posOfCoord e.1)) :
    ∃ c, 1 ≤ c ∧ c ≤ sh.nCols ∧ x = (r, c) := by
  simp only [List.mem_map, List.mem_filterMap, List.mem_range'_1] at hx
  obtain ⟨e, ⟨c, ⟨hc1, hc2⟩, he⟩, rfl⟩ := hx
  by_cases hv : sh.val r c = []
  · rw [if_pos hv] at he
    simp at he
  · rw [if_neg hv] at he
    obtain rfl := Option.some.injEq .. ▸ he
    exact ⟨c, hc1, by omega, posOfCoord_coordOf r c hc1⟩

/-- C5: the extractor returns exactly the cells whose value is truthy (non-empty),
keyed by coordinate, and the list order is the row-major visitation order: outer
loop over rows top to bottom, inner loop over columns left to right. A sheet whose
only non-empty cell is C3 = X yields exactly that one entry. -/
theorem c5_extract_non_empty_cells :
    (∀ (sh : SheetData) (coord v : List Char),
      (coord, v) ∈ extract_non_empty_cells sh ↔
        ∃ r c, 1 ≤ r ∧ r ≤ sh.nRows ∧ 1 ≤ c ∧ c ≤ sh.nCols ∧
          sh.val r c = v ∧ v ≠ [] ∧ coord = coordOf r c) ∧
    (∀ sh : SheetData,
      List.Pairwise posLt ((extract_non_empty_cells sh).map (fun e => posOfCoord e.1))) ∧
    extract_non_empty_cells
        ⟨3, 3, fun r c => if r = 3 ∧ c = 3 then "X".data else []⟩
      = [("C3".data, "X".data)] := by
  refine ⟨?_, ?_, by decide⟩
  · intro sh coord v
    unfold extract_non_empty_cells
    simp only [List.mem_flatMap, List.mem_filterMap, List.mem_range'_1]
    constructor
    · rintro ⟨r, ⟨hr1, hr2⟩, c, ⟨hc1, hc2⟩, he⟩
      by_cases hv : sh.val r c = []
      · rw [if_pos hv] at he
        simp at he
      · rw [if_neg hv] at he
        have he2 : coordOf r c = coord ∧ sh.val r c = v := by
          have := Option.some.injEq .. ▸ he
          exact ⟨congrArg Prod.fst this, congrArg Prod.snd this⟩
        exact ⟨r, c, hr1, by omega, hc1, by omega, he2.2,
          by rw [← he2.2]; exact hv, he2.1.symm⟩
    · rintro ⟨r, c, hr1, hr2, hc1, hc2, hval, hvne, rfl⟩
      refine ⟨r, ⟨hr1, by omega⟩, c, ⟨hc1, by omega⟩, ?_⟩
      rw [if_neg (by rw [hval]; exact hvne), hval]
  · intro sh
    unfold extract_non_empty_cells
    rw [List.map_flatMap]
    have hflat : ∀ (l : List Nat) (h : Nat → List (Nat × Nat)),
        l.flatMap h = (l.map h).flatten := fun l h => rfl
    rw [hflat]
    rw [List.pairwise_flatten]
    have hrows : List.Pairwise (fun a b => 1 ≤ a ∧ a < b) (List.range' 1 sh.nRows) := by
      refine List.Pairwise.imp_of_mem ?_ (List.pairwise_lt_range' ..)
      intro a b ha _ hab
      have := List.mem_range'_1.mp ha
      exact ⟨this.1, hab⟩
    constructor
    · intro seg hseg
      rw [List.mem_map] at hseg
      obtain ⟨r, hrmem, rfl⟩ := hseg
      have hr1 : 1 ≤ r := (List.mem_range'_1.mp hrmem).1
      rw [List.map_filterMap]
      have hcols : List.Pairwise (fun a b => 1 ≤ a ∧ a < b) (List.range' 1 sh.nCols) := by
        refine List.Pairwise.imp_of_mem ?_ (List.pairwise_lt_range' ..)
        intro a b ha _ hab
        exact ⟨(List.mem_range'_1.mp ha).1, hab⟩
      refine List.Pairwise.filterMap _ ?_ hcols
      intro c c' hcc b hb b' hb'
      obtain ⟨hc1, hlt⟩ := hcc
      by_cases hv : sh.val r c = []
      · rw [if_pos hv] at hb; simp at hb
      · rw [if_neg hv] at hb
        by_cases hv' : sh.val r c' = []
        · rw [if_pos hv'] at hb'; simp at hb'
        · rw [if_neg hv'] at hb'
          have hb0 : b ∈ some (posOfCoord (coordOf r c)) := hb
          have hb0' : b' ∈ some (posOfCoord (coordOf r c')) := hb'
          rw [← Option.mem_some_iff.mp hb0, ← Option.mem_some_iff.mp hb0',
            posOfCoord_coordOf r c hc1, posOfCoord_coordOf r c' (by omega)]
          exact Or.inr ⟨rfl, hlt⟩
    · rw [List.pairwise_map]
      refine List.Pairwise.imp_of_mem ?_ hrows
      intro r r' hr _ hrr x hx y hy
      obtain ⟨c, hc1, hc2, rfl⟩ := mem_extract_segment sh r x hx
      obtain ⟨c', hc1', hc2', rfl⟩ := mem_extract_segment sh r' y hy
      exact Or.inl hrr.2

/-- Witness for C5: the membership characterization and order applied to the
concrete one-cell sheet of the claim. -/
theorem c5_extract_non_empty_cells_witness :
    (("C3".data, "X".data) ∈ extract_non_empty_cells
        ⟨3, 3, fun r c => if r = 3 ∧ c = 3 then "X".data else []⟩ ↔
      ∃ r c, 1 ≤ r ∧ r ≤ 3 ∧ 1 ≤ c ∧ c ≤ 3 ∧
        (if r = 3 ∧ c = 3 then "X".data else []) = "X".data ∧
        ("X".data : List Char) ≠ [] ∧ "C3".data = coordOf r c) ∧
    List.Pairwise posLt ((extract_non_empty_cells
        ⟨3, 3, fun r c => if r = 3 ∧ c = 3 then "X".data else []⟩).map
      (fun e => posOfCoord e.1)) := by
  exact ⟨c5_extract_non_empty_cells.1
      ⟨3, 3, fun r c => if r = 3 ∧ c = 3 then "X".data else []⟩ "C3".data "X".data,
    c5_extract_non_empty_cells.2.1
      ⟨3, 3, fun r c => if r = 3 ∧ c = 3 then "X".data else []⟩⟩

/-! ## Markdown renderer (extract_xlsxcells.generate_markdown_from_excel) -/

/-- One rendered cell line, newline included. -/
def renderPairLine (p : List Char × List Char) : List Char :=
  "### ".data ++ p.1 ++ ": ".data ++ p.2 ++ ['\n']

/-- One rendered sheet section: heading, fence, cell lines, closing fence,
blank line. -/
def renderSheetSection (name : List Char) (pairs : List (List Char × List Char)) :
    List Char :=
  "## ".data ++ name ++ ['\n'] ++ ("```markdown".data ++ ['\n'])
    ++ (pairs.map renderPairLine).flatten ++ ("```".data ++ ['\n'] ++ ['\n'])

def summarySectionName : List Char := "シート構成サマリ".data

/-- generate_markdown_from_excel, modelled on the extracted per-sheet mappings:
the file heading, the fenced summary section, then one fenced section per sheet
with one cell line per extracted pair. -/
def generate_markdown_from_excel (fileName : List Char)
    (sheets : List (List Char × List (List Char × List Char))) : List Char :=
  "# ファイル名: ".data ++ fileName ++ ['\n'] ++ ['\n']
    ++ ("## ".data ++ summarySectionName ++ ['\n'])
    ++ ("```markdown".data ++ ['\n'])
    ++ annotate_sheet_structure_text (sheets.map (fun s => s.1))
    ++ ("```".data ++ ['\n'] ++ ['\n'])
    ++ (sheets.map (fun s => renderSheetSection s.1 s.2)).flatten

/-- The same function applied to a workbook's sheets via the cell extractor. -/
def generate_markdown_from_workbook (fileName : List Char)
    (sheets : List (List Char × SheetData)) : List Char :=
  generate_markdown_from_excel fileName
    (sheets.map (fun s => (s.1, extract_non_empty_cells s.2)))

/-! ## Batch surfaces of the three scripts (for the empty-input behavior) -/

/-- Result of one batch run: printed lines, clean-exit flag, written outputs. -/
structure BatchResult (α : Type) where
  messages : List (List Char)
  exitOk : Bool
  outputs : List (List Char × α)

/-- The warning printed by the two workbook-reading jobs. -/
def warnNoXlsx (dir : List Char) : List Char :=
  "[Warning] No .xlsx files found in ".data ++ dir

/-- View of one named sheet of a workbook as a standalone worksheet. -/
def wsOf (wb : Workbook) (s : List Char) : Worksheet :=
  { cellVal := wb.cells s, merged := wb.merged s }

/-- Store a standalone worksheet back under its name. -/
def setWs (wb : Workbook) (s : List Char) (w : Worksheet) : Workbook :=
  { sheetNames := wb.sheetNames,
    cells := fun s' => if s' = s then w.cellVal else wb.cells s',
    merged := fun s' => if s' = s then w.merged else wb.merged s' }

/-- process_excel_for_markdown: build the summary sheet, then unmerge and annotate
every sheet except the summary sheet itself. -/
def process_excel_for_markdown (wb : Workbook) : Workbook :=
  let wb1 := annotate_sheet_structure_wb wb
  wb1.sheetNames.foldl
    (fun w s => if s = summarySheetName then w
      else setWs w s (unmerge_cells_and_annotate (wsOf w s))) wb1

/-- Python os.path.splitext base: the name up to the last dot (unchanged when no
dot occurs). -/
def splitextBase (s : List Char) : List Char :=
  if '.' ∈ s then ((s.reverse.dropWhile (fun c => !(c = '.'))).drop 1).reverse else s

/-- Output file name of the extraction job: base name with extension .md. -/
def mdName (base : List Char) : List Char := splitextBase base ++ ".md".data

/-- The excelrefine.py __main__ batch over the matched .xlsx files: a warning and
sys.exit(0) when there are none; otherwise one progress line and one processed
workbook per file, written under the same base name. -/
def excelrefine_batch (inDir outDir : List Char)
    (files : List (List Char × Workbook)) : BatchResult Workbook :=
  if files.isEmpty then
    { messages := [warnNoXlsx inDir], exitOk := true, outputs := [] }
  else
    { messages := files.flatMap (fun f =>
        ["Processing: ".data ++ inDir ++ ['/'] ++ f.1 ++ " -> ".data
            ++ outDir ++ ['/'] ++ f.1,
         "Processed Excel saved to ".data ++ outDir ++ ['/'] ++ f.1]),
      exitOk := true,
      outputs := files.map (fun f => (f.1, process_excel_for_markdown f.2)) }

/-- The extract_xlsxcells.py module-level batch: a warning and sys.exit(0) when no
.xlsx files match; otherwise one progress line plus the printed markdown per file,
written under the base name with extension .md. -/
def extract_xlsxcells_batch (inDir outDir : List Char)
    (files : List (List Char × List (List Char × SheetData))) :
    BatchResult (List Char) :=
  if files.isEmpty then
    { messages := [warnNoXlsx inDir], exitOk := true, outputs := [] }
  else
    { messages := files.flatMap (fun f =>
        ["Processing: ".data ++ inDir ++ ['/'] ++ f.1 ++ " -> ".data
            ++ outDir ++ ['/'] ++ mdName f.1,
         generate_markdown_from_workbook f.1 f.2]),
      exitOk := true,
      outputs := files.map (fun f => (mdName f.1, generate_markdown_from_workbook f.1 f.2)) }

/-- process_markdown_directory of md2excel_tbl.py: the loop over the matched .md
files parses and reconstructs each one; it prints nothing and has no empty-input
check. none models a raised exception (malformed coordinate) aborting the batch. -/
def process_markdown_directory (files : List (List Char × List Char)) :
    Option (BatchResult (List (List Char × Grid))) :=
  match files.mapM (fun f =>
      (createAllGrids (parse_markdown_to_table f.2)).map (fun gs => (f.1, gs))) with
  | some outs => some { messages := [], exitOk := true, outputs := outs }
  | none => none

/-- C9 counterexample: with no matching files the markdown-reconstruction job exits
cleanly with no outputs but prints nothing at all, so in particular it prints no
warning, while the claim requires a warning from each of the three jobs. -/
theorem c9_counterexample_md_job_silent :
    process_markdown_directory ([] : List (List Char × List Char))
      = some { messages := [], exitOk := true, outputs := [] } := rfl

/-- C9 amended: with no matching input files, the two workbook-reading jobs print
exactly the warning line naming the input directory and exit cleanly producing no
outputs; the grid-reconstruction job also exits cleanly producing no outputs, but
prints no warning, since it has no empty-input check. -/
theorem c9_empty_input_behavior :
    (∀ inDir outDir : List Char,
      excelrefine_batch inDir outDir []
        = { messages := [warnNoXlsx inDir], exitOk := true, outputs := [] }) ∧
    (∀ inDir outDir : List Char,
      extract_xlsxcells_batch inDir outDir []
        = { messages := [warnNoXlsx inDir], exitOk := true, outputs := [] }) ∧
    process_markdown_directory ([] : List (List Char × List Char))
      = some { messages := [], exitOk := true, outputs := [] } :=
  ⟨fun _ _ => rfl, fun _ _ => rfl, rfl⟩

/-! ## Round trip: render then parse (C2) -/

theorem flatMap_eq_flatten_map {α β : Type} (f : α → List β) (l : List α) :
    l.flatMap f = (l.map f).flatten := rfl

theorem joinNl_nil : joinNl [] = [] := rfl

theorem joinNl_cons (x : List Char) (ls : List (List Char)) :
    joinNl (x :: ls) = x ++ '\n' :: joinNl ls := by
  unfold joinNl
  rw [List.map_cons, List.flatten_cons]
  simp

theorem joinNl_append (a b : List (List Char)) :
    joinNl (a ++ b) = joinNl a ++ joinNl b := by
  unfold joinNl
  rw [List.map_append, List.flatten_append]

/-- The lines of one rendered sheet section. -/
def sectionLines (s : List Char × List (List Char × List Char)) : List (List Char) :=
  ("## ".data ++ s.1) :: "```markdown".data
    :: (s.2.map (fun p => "### ".data ++ p.1 ++ ": ".data ++ p.2) ++ ["```".data, []])

/-- The full line list of a rendered document, terminal empty line excluded. -/
def docLines (fileName : List Char)
    (sheets : List (List Char × List (List Char × List Char))) : List (List Char) :=
  ("# ファイル名: ".data ++ fileName) :: [] :: ("## ".data ++ summarySectionName)
    :: "```markdown".data :: summaryHeader
    :: (summaryBody 1 (sheets.map (fun s => s.1))
      ++ ["```".data, []] ++ sheets.flatMap sectionLines)

theorem renderSheetSection_eq_joinNl (s : List Char × List (List Char × List Char)) :
    renderSheetSection s.1 s.2 = joinNl (sectionLines s) := by
  unfold renderSheetSection sectionLines
  rw [joinNl_cons, joinNl_cons, joinNl_append,
    show joinNl ["```".data, []] = "```".data ++ ['\n'] ++ ['\n'] from rfl]
  have hpl : ∀ ps : List (List Char × List Char),
      joinNl (ps.map (fun p => "### ".data ++ p.1 ++ ": ".data ++ p.2))
        = (ps.map renderPairLine).flatten := by
    intro ps
    induction ps with
    | nil => rfl
    | cons p rest ih =>
      rw [List.map_cons, joinNl_cons, List.map_cons, List.flatten_cons, ih]
      unfold renderPairLine
      simp
  rw [hpl]
  simp [List.append_assoc]

theorem sections_eq_joinNl (sheets : List (List Char × List (List Char × List Char))) :
    (sheets.map (fun s => renderSheetSection s.1 s.2)).flatten
      = joinNl (sheets.flatMap sectionLines) := by
  induction sheets with
  | nil => rfl
  | cons s rest ih =>
    rw [List.map_cons, List.flatten_cons, List.flatMap_cons, joinNl_append, ih,
      renderSheetSection_eq_joinNl]

theorem render_eq_joinNl (fileName : List Char)
    (sheets : List (List Char × List (List Char × List Char))) :
    generate_markdown_from_excel fileName sheets
      = joinNl (docLines fileName sheets) := by
  unfold generate_markdown_from_excel docLines annotate_sheet_structure_text
  rw [joinNl_cons, joinNl_cons, joinNl_cons, joinNl_cons, joinNl_cons,
    joinNl_append, joinNl_append,
    show joinNl ["```".data, []] = "```".data ++ ['\n'] ++ ['\n'] from rfl,
    sections_eq_joinNl]
  simp

/-- A well-formed coordinate string: a non-empty uppercase letter run followed by
a non-empty digit run and nothing else. -/
def validCoordStr (c : List Char) : Prop :=
  c.takeWhile isUpperAZ ≠ [] ∧ c.dropWhile isUpperAZ ≠ [] ∧
    ∀ x ∈ c.dropWhile isUpperAZ, isDigitCh x = true

/-- Side conditions on a value under which its rendered line parses back. -/
def goodValue (v : List Char) : Prop :=
  '\n' ∉ v ∧ containsSub cellMarker v = false ∧ pyStrip v = v

/-- Side conditions on a sheet name. -/
def goodSheetName (n : List Char) : Prop :=
  n ≠ [] ∧ '\n' ∉ n ∧ pyStrip n = n ∧ containsSub sheetMarker n = false ∧
    n ≠ summarySectionName

/-- Side conditions on one rendered sheet. -/
def goodSheet (s : List Char × List (List Char × List Char)) : Prop :=
  goodSheetName s.1 ∧ ∀ p ∈ s.2, validCoordStr p.1 ∧ goodValue p.2

theorem validCoordStr_chars (c : List Char) (h : validCoordStr c) :
    ∀ x ∈ c, isUpperAZ x = true ∨ isDigitCh x = true := by
  intro x hx
  rw [← List.takeWhile_append_dropWhile isUpperAZ c, List.mem_append] at hx
  rcases hx with hx | hx
  · exact Or.inl (List.mem_takeWhile_imp hx)
  · exact Or.inr (h.2.2 x hx)

theorem coord_char_facts (x : Char) (h : isUpperAZ x = true ∨ isDigitCh x = true) :
    ¬ (x = '\n') ∧ ¬ (x = '#') ∧ ¬ (x = ':') ∧ isSpaceCh x = false := by
  rcases h with h | h
  · refine ⟨?_, ?_, ?_, not_space_of_upper x h⟩ <;>
      · intro he
        rw [he] at h
        revert h
        decide
  · refine ⟨?_, ?_, ?_, not_space_of_digit x h⟩ <;>
      · intro he
        rw [he] at h
        revert h
        decide

theorem parseLine_ignored (st : ParseState) (line : List Char)
    (h1 : sheetMarker.isPrefixOf line = false)
    (h2 : cellMarker.isPrefixOf line = false) :
    parseLine st line = st := by
  unfold parseLine
  rw [if_neg (by simp [h1]), if_neg (by simp [h2])]

theorem foldl_parseLine_ignored : ∀ (lines : List (List Char)) (st : ParseState),
    (∀ l ∈ lines, sheetMarker.isPrefixOf l = false ∧ cellMarker.isPrefixOf l = false) →
    List.foldl parseLine st lines = st := by
  intro lines
  induction lines with
  | nil => intro st _; rfl
  | cons l rest ih =>
    intro st h
    rw [List.foldl_cons, parseLine_ignored st l (h l (by simp)).1 (h l (by simp)).2,
      ih st (fun x hx => h x (List.mem_cons_of_mem _ hx))]

theorem parseLine_sheet (st : ParseState) (n : List Char)
    (hn : containsSub sheetMarker n = false) (hstrip : pyStrip n = n) :
    parseLine st (sheetMarker ++ n) = ⟨finalizeState st, some n, []⟩ := by
  unfold parseLine
  rw [if_pos (by rw [isPrefixOf_append_self]),
    removeAll_pat_append sheetMarker n (by decide) hn, hstrip]

theorem sheetTruthy_some (n : List Char) (hn : n ≠ []) :
    sheetTruthy (some n) = true := by
  cases n with
  | nil => exact absurd rfl hn
  | cons c rest => rfl

theorem parseLine_pair (st : ParseState) (c v : List Char)
    (htr : sheetTruthy st.currentSheet = true)
    (hc : validCoordStr c) (hv : goodValue v) :
    parseLine st ("### ".data ++ c ++ ": ".data ++ v)
      = ⟨st.tables, st.currentSheet, st.currentData ++ [(c, v)]⟩ := by
  have hline : ("### ".data ++ c ++ ": ".data ++ v : List Char)
      = cellMarker ++ (c ++ (": ".data ++ v)) := by
    simp [cellMarker]
  rw [hline]
  have hchars := validCoordStr_chars c hc
  have hnp : sheetMarker.isPrefixOf (cellMarker ++ (c ++ (": ".data ++ v))) = false := rfl
  have hnp' : ¬ (sheetMarker.isPrefixOf (cellMarker ++ (c ++ (": ".data ++ v))) = true) := by
    rw [hnp]
    decide
  have hcontains : containsSub cellMarker (c ++ (": ".data ++ v)) = false := by
    rw [show (cellMarker : List Char) = '#' :: ['#', '#', ' '] from rfl,
      containsSub_append_head_notin '#' ['#', '#', ' '] c (": ".data ++ v)
        (fun hm => ((coord_char_facts _ (hchars '#' hm)).2.1) rfl),
      show (": ".data ++ v : List Char) = [':', ' '] ++ v from rfl,
      containsSub_append_head_notin '#' ['#', '#', ' '] [':', ' '] v (by decide)]
    exact hv.2.1
  have hsplit : pySplitColon1 (c ++ (": ".data ++ v)) = [c, ' ' :: v] := by
    unfold pySplitColon1
    rw [show (": ".data ++ v : List Char) = ':' :: (' ' :: v) from rfl,
      splitColonAux_append c (' ' :: v)
        (fun hm => ((coord_char_facts _ (hchars ':' hm)).2.2.1) rfl)]
  have hstripc : pyStrip c = c :=
    pyStrip_no_space c (fun x hx => (coord_char_facts x (hchars x hx)).2.2.2)
  have hstripv : pyStrip (' ' :: v) = v := by
    rw [pyStrip_cons_space ' ' v (by decide), hv.2.2]
  unfold parseLine
  rw [if_neg hnp',
    if_pos (And.intro (isPrefixOf_append_self cellMarker (c ++ (": ".data ++ v))) htr),
    removeAll_pat_append cellMarker (c ++ (": ".data ++ v)) (by decide) hcontains,
    hsplit]
  dsimp only
  rw [hstripc, hstripv]

theorem foldl_pairLines : ∀ (ps : List (List Char × List Char)) (st : ParseState),
    sheetTruthy st.currentSheet = true →
    (∀ p ∈ ps, validCoordStr p.1 ∧ goodValue p.2) →
    List.foldl parseLine st
        (ps.map (fun p => "### ".data ++ p.1 ++ ": ".data ++ p.2))
      = ⟨st.tables, st.currentSheet, st.currentData ++ ps⟩ := by
  intro ps
  induction ps with
  | nil => intro st _ _; cases st; simp
  | cons p rest ih =>
    intro st htr hgood
    rw [List.map_cons, List.foldl_cons,
      parseLine_pair st p.1 p.2 htr (hgood p (by simp)).1 (hgood p (by simp)).2,
      ih ⟨st.tables, st.currentSheet, st.currentData ++ [(p.1, p.2)]⟩ htr
        (fun x hx => hgood x (List.mem_cons_of_mem _ hx))]
    simp

theorem foldl_sectionLines (s : List Char × List (List Char × List Char))
    (st : ParseState) (hgood : goodSheet s) :
    List.foldl parseLine st (sectionLines s) = ⟨finalizeState st, some s.1, s.2⟩ := by
  obtain ⟨⟨hne, _, hstrip, hsub, _⟩, hpairs⟩ := hgood
  unfold sectionLines
  rw [List.foldl_cons, List.foldl_cons,
    show ("## ".data ++ s.1 : List Char) = sheetMarker ++ s.1 from rfl,
    parseLine_sheet st s.1 hsub hstrip,
    parseLine_ignored _ "```markdown".data rfl rfl,
    List.foldl_append,
    foldl_pairLines s.2 _ (sheetTruthy_some s.1 hne) hpairs]
  rw [foldl_parseLine_ignored ["```".data, []] _ (by decide)]
  simp

theorem finalizeState_some (T : List (List Char × List (List Char × List Char)))
    (n : List Char) (d : List (List Char × List Char)) (hn : n ≠ []) :
    finalizeState ⟨T, some n, d⟩ = if d ≠ [] then T ++ [(n, d)] else T := by
  unfold finalizeState
  by_cases hd : d = []
  · rw [if_neg (fun h => h.2 hd), if_neg (by simpa using hd)]
  · rw [if_pos ⟨sheetTruthy_some n hn, hd⟩, if_pos hd]
    dsimp only
    rw [Option.getD_some]

theorem finalize_foldl_sections :
    ∀ (sheets : List (List Char × List (List Char × List Char))) (st : ParseState),
    sheetTruthy st.currentSheet = true →
    (∀ s ∈ sheets, goodSheet s) →
    finalizeState (List.foldl parseLine st (sheets.flatMap sectionLines))
      = finalizeState st ++ sheets.filter (fun s => !s.2.isEmpty) := by
  intro sheets
  induction sheets with
  | nil => intro st _ _; simp
  | cons s rest ih =>
    intro st htr hgood
    rw [List.flatMap_cons, List.foldl_append,
      foldl_sectionLines s st (hgood s (by simp)),
      ih _ (sheetTruthy_some s.1 (hgood s (by simp)).1.1)
        (fun x hx => hgood x (List.mem_cons_of_mem _ hx)),
      finalizeState_some _ s.1 s.2 (hgood s (by simp)).1.1]
    by_cases hd : s.2 = []
    · rw [if_neg (by simpa using hd), List.filter_cons,
        if_neg (by simp [hd])]
    · rw [if_pos hd, List.filter_cons, if_pos (by simpa using hd)]
      cases s
      simp

theorem foldl_prelude (fileName : List Char)
    (names : List (List Char)) :
    List.foldl parseLine ⟨[], none, []⟩
        ((("# ファイル名: ".data ++ fileName) :: [] :: ("## ".data ++ summarySectionName)
          :: "```markdown".data :: summaryHeader
          :: (summaryBody 1 names ++ ["```".data, []])))
      = ⟨[], some summarySectionName, []⟩ := by
  rw [List.foldl_cons,
    parseLine_ignored ⟨[], none, []⟩ ("# ファイル名: ".data ++ fileName) rfl rfl,
    List.foldl_cons, parseLine_ignored ⟨[], none, []⟩ [] rfl rfl,
    List.foldl_cons,
    show ("## ".data ++ summarySectionName : List Char)
      = sheetMarker ++ summarySectionName from rfl,
    parseLine_sheet _ summarySectionName (by decide) (by decide),
    List.foldl_cons,
    parseLine_ignored ⟨finalizeState ⟨[], none, []⟩, some summarySectionName, []⟩
      "```markdown".data rfl rfl,
    List.foldl_cons,
    parseLine_ignored ⟨finalizeState ⟨[], none, []⟩, some summarySectionName, []⟩
      summaryHeader rfl rfl]
  rw [show finalizeState ⟨[], none, []⟩
      = ([] : List (List Char × List (List Char × List Char))) from rfl]
  rw [List.foldl_append]
  rw [foldl_parseLine_ignored (summaryBody 1 names) _ ?_]
  · rw [foldl_parseLine_ignored ["```".data, []] _ (by decide)]
  · intro l hl
    obtain ⟨j, n, _, rfl⟩ := summaryBody_mem names 1 l hl
    exact ⟨rfl, rfl⟩

/-- Parsing a rendered document recovers exactly the sheets with a non-empty pair
list, in order, with exactly their pairs. -/
theorem parse_render (fileName : List Char)
    (sheets : List (List Char × List (List Char × List Char)))
    (hfn : '\n' ∉ fileName)
    (hs : ∀ s ∈ sheets, goodSheet s) :
    parse_markdown_to_table (generate_markdown_from_excel fileName sheets)
      = sheets.filter (fun s => !s.2.isEmpty) := by
  have hlines : splitOnNl (generate_markdown_from_excel fileName sheets)
      = docLines fileName sheets ++ [[]] := by
    rw [render_eq_joinNl]
    apply splitOnNl_joinNl
    intro l hl
    unfold docLines at hl
    rcases List.mem_cons.mp hl with rfl | hl
    · rw [List.mem_append]
      rintro (hm | hm)
      · revert hm; decide
      · exact hfn hm
    rcases List.mem_cons.mp hl with rfl | hl
    · simp
    rcases List.mem_cons.mp hl with rfl | hl
    · decide
    rcases List.mem_cons.mp hl with rfl | hl
    · decide
    rcases List.mem_cons.mp hl with rfl | hl
    · decide
    rcases List.mem_append.mp hl with hl | hl
    rcases List.mem_append.mp hl with hl | hl
    · obtain ⟨j, n, hn, rfl⟩ := summaryBody_mem _ 1 l hl
      obtain ⟨s, hsmem, rfl⟩ := List.mem_map.mp hn
      exact summaryLine_no_nl j s.1 (hs s hsmem).1.2.1
    · rcases List.mem_cons.mp hl with rfl | hl
      · decide
      rcases List.mem_cons.mp hl with rfl | hl
      · simp
      exact absurd hl (List.not_mem_nil l)
    · rw [List.mem_flatMap] at hl
      obtain ⟨s, hsmem, hl⟩ := hl
      unfold sectionLines at hl
      rcases List.mem_cons.mp hl with rfl | hl
      · rw [List.mem_append]
        rintro (hm | hm)
        · revert hm; decide
        · exact (hs s hsmem).1.2.1 hm
      rcases List.mem_cons.mp hl with rfl | hl
      · decide
      rcases List.mem_append.mp hl with hl | hl
      · obtain ⟨p, hp, rfl⟩ := List.mem_map.mp hl
        have hcv := (hs s hsmem).2 p hp
        intro hm
        rw [List.mem_append] at hm
        rcases hm with hm | hm
        · rw [List.mem_append] at hm
          rcases hm with hm | hm
          · rw [List.mem_append] at hm
            rcases hm with hm | hm
            · revert hm; decide
            · exact (coord_char_facts _ (validCoordStr_chars p.1 hcv.1 _ hm)).1 rfl
          · revert hm; decide
        · exact hcv.2.1 hm
      · rcases List.mem_cons.mp hl with rfl | hl
        · decide
        rcases List.mem_cons.mp hl with rfl | hl
        · simp
        exact absurd hl (List.not_mem_nil l)
  unfold parse_markdown_to_table
  rw [hlines]
  have hdoc : docLines fileName sheets ++ [[]]
      = ((("# ファイル名: ".data ++ fileName) :: [] :: ("## ".data ++ summarySectionName)
          :: "```markdown".data :: summaryHeader
          :: (summaryBody 1 (sheets.map (fun s => s.1)) ++ ["```".data, []]))
        ++ (sheets.flatMap sectionLines ++ [[]])) := by
    unfold docLines
    simp
  rw [hdoc, List.foldl_append, foldl_prelude, List.foldl_append,
    foldl_parseLine_ignored [[]] _ (by decide)]
  rw [finalize_foldl_sections sheets _ (by decide) hs]
  rfl

theorem find?_name_none (n : List Char) :
    ∀ l : List (List Char × List (List Char × List Char)),
    (∀ s ∈ l, s.1 ≠ n) → l.find? (fun t => t.1 == n) = none := by
  intro l
  induction l with
  | nil => intro _; rfl
  | cons s rest ih =>
    intro h
    rw [List.find?_cons_of_neg, ih (fun x hx => h x (List.mem_cons_of_mem _ hx))]
    simp [h s (by simp)]

theorem tablesGet_cons_ne (m : List Char) (qs : List (List Char × List Char))
    (L : List (List Char × List (List Char × List Char))) (n : List Char)
    (hne : ¬ (m = n)) :
    tablesGet ((m, qs) :: L) n = tablesGet L n := by
  unfold tablesGet
  rw [List.reverse_cons, List.find?_append,
    show List.find? (fun t => t.1 == n) [(m, qs)] = none from by
      rw [List.find?_cons_of_neg _ (by simpa using hne)]
      rfl,
    Option.or_none]

theorem tablesGet_filter :
    ∀ (sheets : List (List Char × List (List Char × List Char))),
    (sheets.map (fun s => s.1)).Nodup →
    ∀ (n : List Char) (ps : List (List Char × List Char)), (n, ps) ∈ sheets →
    tablesGet (sheets.filter (fun s => !s.2.isEmpty)) n = ps := by
  intro sheets
  induction sheets with
  | nil => intro _ n ps h; simp at h
  | cons s rest ih =>
    obtain ⟨m, qs⟩ := s
    intro hnd n ps hmem
    rw [List.map_cons] at hnd
    have hnotin := (List.nodup_cons.mp hnd).1
    have hnd' := (List.nodup_cons.mp hnd).2
    have hnames : ∀ x ∈ rest.filter (fun s => !s.2.isEmpty), x.1 ≠ m := by
      intro x hx he
      exact hnotin (List.mem_map.mpr ⟨x, List.mem_of_mem_filter hx, he⟩)
    rw [List.filter_cons]
    rcases List.mem_cons.mp hmem with heq | hmem'
    · injection heq with h1 h2
      subst h1
      subst h2
      by_cases hqe : ps = []
      · rw [if_neg (by simp [hqe])]
        unfold tablesGet
        rw [find?_name_none n _
          (fun x hx => hnames x (List.mem_reverse.mp hx)), hqe]
      · rw [if_pos (by simpa using hqe)]
        unfold tablesGet
        rw [List.reverse_cons, List.find?_append,
          find?_name_none n _ (fun x hx => hnames x (List.mem_reverse.mp hx)),
          Option.none_or,
          show List.find? (fun t => t.1 == n) [(n, ps)] = some (n, ps) from by
            simp [List.find?]]
    · have hmn : ¬ (m = n) := by
        intro he
        subst he
        exact hnotin (List.mem_map.mpr ⟨(m, ps), hmem', rfl⟩)
      by_cases hqe : qs = []
      · rw [if_neg (by simp [hqe])]
        exact ih hnd' n ps hmem'
      · rw [if_pos (by simpa using hqe), tablesGet_cons_ne m qs _ n hmn]
        exact ih hnd' n ps hmem'

/-- C2 counterexample: the sheet mapping A1 to the single-line value a ### b
satisfies the claim's proviso (no line of any value starts with the literal
markers), yet the round trip does not recover the pairs: the parser removes every
occurrence of the cell marker in the line, yielding the value a b. -/
theorem c2_counterexample_inner_marker :
    (∀ line ∈ splitOnNl "a ### b".data,
      sheetMarker.isPrefixOf line = false ∧ cellMarker.isPrefixOf line = false) ∧
    tablesGet (parse_markdown_to_table (generate_markdown_from_excel "f".data
        [("S".data, [("A1".data, "a ### b".data)])])) "S".data
      = [("A1".data, "a b".data)] ∧
    ¬ ([("A1".data, "a b".data)] = [("A1".data, "a ### b".data)]) := by
  exact ⟨by decide, by decide, by decide⟩

/-- C2 amended: rendering the per-sheet coordinate-to-value mappings and parsing
the text back recovers exactly each sheet's (coordinate, value) pair list,
provided: the file name contains no newline; the sheet names are pairwise
distinct, non-empty, newline-free, equal to their stripped form, free of the
substring "## " anywhere, and different from the summary section title; every
coordinate is an uppercase letter run followed by a digit run; and every value
contains no newline, no occurrence of the substring "### " anywhere (not only at
line starts, which the claim's weaker proviso allows), and equals its stripped
form. -/
theorem c2_render_parse_round_trip (fileName : List Char)
    (sheets : List (List Char × List (List Char × List Char)))
    (hfn : '\n' ∉ fileName)
    (hnd : (sheets.map (fun s => s.1)).Nodup)
    (hs : ∀ s ∈ sheets, goodSheet s) :
    ∀ s ∈ sheets,
      tablesGet (parse_markdown_to_table
          (generate_markdown_from_excel fileName sheets)) s.1 = s.2 := by
  intro s hmem
  rw [parse_render fileName sheets hfn hs]
  obtain ⟨n, ps⟩ := s
  exact tablesGet_filter sheets hnd n ps hmem

/-- Witness for C2: the round trip evaluated on a concrete one-sheet workbook. -/
theorem c2_render_parse_round_trip_witness :
    ('\n' ∉ "f".data) ∧
    (([("S".data, [("A1".data, "hello".data)])].map
        (fun s : List Char × List (List Char × List Char) => s.1)).Nodup) ∧
    (∀ s ∈ [("S".data, [("A1".data, "hello".data)])], goodSheet s) ∧
    tablesGet (parse_markdown_to_table (generate_markdown_from_excel "f".data
        [("S".data, [("A1".data, "hello".data)])])) "S".data
      = [("A1".data, "hello".data)] := by
  refine ⟨by decide, by decide, ?_, ?_⟩
  · intro s hsmem
    have hse : s = ("S".data, [("A1".data, "hello".data)]) := by simpa using hsmem
    subst hse
    refine ⟨⟨by decide, by decide, by decide, by decide, by decide⟩, ?_⟩
    intro p hp
    have hpe : p = ("A1".data, "hello".data) := by simpa using hp
    subst hpe
    exact ⟨⟨by decide, by decide, by decide⟩, by decide, by decide, by decide⟩
  · exact c2_render_parse_round_trip "f".data [("S".data, [("A1".data, "hello".data)])]
      (by decide) (by decide)
      (by
        intro s hsmem
        have hse : s = ("S".data, [("A1".data, "hello".data)]) := by simpa using hsmem
        subst hse
        refine ⟨⟨by decide, by decide, by decide, by decide, by decide⟩, ?_⟩
        intro p hp
        have hpe : p = ("A1".data, "hello".data) := by simpa using hp
        subst hpe
        exact ⟨⟨by decide, by decide, by decide⟩, by decide, by decide, by decide⟩)
      ("S".data, [("A1".data, "hello".data)]) (by simp)

/-- C1: the column-letter-to-integer conversion of create_excel_like_grid implements
the bijective base-26 numeral system with no zero digit: on every non-empty uppercase
label it computes the sum over positions of (letter value 1..26) times 26^(position
from the right); A maps to 1, Z to 26, AA to 27, AZ to 52, BA to 53; and the mapping
is a bijection between valid labels and the integers greater or equal to 1. -/
theorem c1_column_letter_bijection :
    (∀ L : List Char, validLabel L → colToInt L = colFormula L) ∧
    (colToInt "A".data = 1 ∧ colToInt "Z".data = 26 ∧ colToInt "AA".data = 27 ∧
      colToInt "AZ".data = 52 ∧ colToInt "BA".data = 53) ∧
    (∀ L : List Char, validLabel L → 1 ≤ colToInt L) ∧
    (∀ L L' : List Char, validLabel L → validLabel L' → colToInt L = colToInt L' → L = L') ∧
    (∀ n : Nat, 1 ≤ n → ∃ L : List Char, validLabel L ∧ colToInt L = n) := by
  refine ⟨fun L _ => colToInt_eq_colFormula L, by decide, ?_, ?_, ?_⟩
  · intro L hL
    obtain ⟨hne, hall⟩ := hL
    obtain ⟨c, L', rfl⟩ := List.exists_cons_of_ne_nil hne
    have : toLetters (colToInt (c :: L')) = c :: L' := toLetters_colToInt _ hall
    by_contra hlt
    have h0 : colToInt (c :: L') = 0 := by omega
    rw [h0, toLetters_zero] at this
    exact List.cons_ne_nil c L' this.symm
  · intro L L' hL hL' heq
    have h1 := toLetters_colToInt L hL.2
    have h2 := toLetters_colToInt L' hL'.2
    rw [← h1, ← h2, heq]
  · intro n hn
    exact ⟨toLetters n, toLetters_valid n hn, colToInt_toLetters n⟩

/-- Witness for C1: concrete instantiation of the quantified parts at the label AZ
and the integer 52. -/
theorem c1_column_letter_bijection_witness :
    (validLabel "AZ".data ∧ colToInt "AZ".data = colFormula "AZ".data ∧
      1 ≤ colToInt "AZ".data) ∧
    (validLabel "AZ".data ∧ validLabel "AZ".data ∧
      colToInt "AZ".data = colToInt "AZ".data ∧ "AZ".data = "AZ".data) ∧
    (1 ≤ 52 ∧ ∃ L : List Char, validLabel L ∧ colToInt L = 52) := by
  have h := c1_column_letter_bijection
  have hv : validLabel "AZ".data := by
    constructor
    · decide
    · decide
  refine ⟨⟨hv, h.1 "AZ".data hv, h.2.2.1 "AZ".data hv⟩,
    ⟨hv, hv, rfl, h.2.2.2.1 "AZ".data "AZ".data hv hv rfl⟩,
    ⟨by norm_num, h.2.2.2.2 52 (by norm_num)⟩⟩

end ExcelEnhance
